import Mathlib

/-!
Verification of the candle-ingestion engine (`bybit_client.py`, `database.py`)
against its natural-language specification.  The Python code is shallowly
embedded: each relevant method becomes a pure Lean function over explicit
state; machine integers are `Nat`/`Int`, Python floats that only carry data
(prices, volumes) are `ℚ`, timestamps are `Nat` milliseconds.  The embedding
follows the source line by line; `fetch` parameters stand for the exchange
REST endpoint, so two sequential calls with the same `fetch` model an
unchanged exchange history.
-/

namespace CriptoBack

/-- One row of the Bybit kline REST response (`data['result']['list']`):
`kline[0]` is the start timestamp in ms, `kline[1..5]` are OHLCV. -/
structure BybitKline where
  ts : Nat
  openPrice : ℚ
  highPrice : ℚ
  lowPrice : ℚ
  closePrice : ℚ
  volume : ℚ
deriving DecidableEq, Repr

/-- The HTTP answer of one page request in `_load_full_period`:
`response.status_code`, `data['retCode']` and `data['result']['list']`. -/
structure KlineResponse where
  status : Nat
  retCode : Int
  rows : List BybitKline
deriving DecidableEq, Repr

/-- One row of the `kline_data` table keyed by `(symbol, timestamp_ms)`;
the embedding keeps one table per symbol, so the key is `timestampMs`. -/
structure StoredCandle where
  timestampMs : Nat
  openPrice : ℚ
  highPrice : ℚ
  lowPrice : ℚ
  closePrice : ℚ
  volume : ℚ
  isClosed : Bool
deriving DecidableEq, Repr

/-- The per-symbol `kline_data` table. -/
abbrev KlineDB := List StoredCandle

/-- `check_candle_exists` (`database.py` 442): `SELECT 1 FROM kline_data
WHERE symbol = %s AND timestamp_ms = %s`. -/
def check_candle_exists (db : KlineDB) (timestampMs : Nat) : Bool :=
  db.any fun c => c.timestampMs == timestampMs

/-- Rounding a millisecond timestamp down to the minute,
`(t // 60000) * 60000`. -/
def roundDownMinute (t : Nat) : Nat := t / 60000 * 60000

/-- The row `_load_full_period` stores for an in-range kline: timestamp
rounded down to the minute, `end = start + 60000`, `confirm = True`;
`save_historical_kline_data` then writes it with `is_closed = TRUE`. -/
def histCandleOf (k : BybitKline) : StoredCandle :=
  { timestampMs := roundDownMinute k.ts
    openPrice := k.openPrice
    highPrice := k.highPrice
    lowPrice := k.lowPrice
    closePrice := k.closePrice
    volume := k.volume
    isClosed := true }

/-- Result of processing one (already reversed) page in `_load_full_period`,
lines 480-516: the updated table, `batch_loaded`, `batch_skipped` and
`last_timestamp`. -/
structure PageResult where
  db : KlineDB
  loaded : Nat
  skipped : Nat
  last : Nat
deriving DecidableEq, Repr

/-- The `for kline in klines` body of `_load_full_period`: rows whose raw
timestamp is outside `[start_time_ms, end_time_ms)` are skipped (and do not
advance `last_timestamp`); otherwise the row is written iff its rounded
timestamp is absent, and `last_timestamp` takes the max with the raw
timestamp. -/
def processKlines (startMs endMs : Nat) (rows : List BybitKline) (db : KlineDB)
    (last : Nat) : PageResult :=
  match rows with
  | [] => ⟨db, 0, 0, last⟩
  | k :: rest =>
    if k.ts < startMs ∨ endMs ≤ k.ts then
      processKlines startMs endMs rest db last
    else
      let rounded := roundDownMinute k.ts
      if check_candle_exists db rounded then
        let pr := processKlines startMs endMs rest db (max last k.ts)
        ⟨pr.db, pr.loaded, pr.skipped + 1, pr.last⟩
      else
        let pr := processKlines startMs endMs rest (db ++ [histCandleOf k]) (max last k.ts)
        ⟨pr.db, pr.loaded + 1, pr.skipped, pr.last⟩

/-- Overall result of `_load_full_period`: final table, `total_loaded`,
`total_skipped`, the returned boolean, and the raw responses of the page
requests actually made (in order). -/
structure LoadResult where
  db : KlineDB
  loaded : Nat
  skipped : Nat
  ok : Bool
  reqs : List KlineResponse
deriving DecidableEq, Repr

/-- The `while current_start < end_time_ms` loop of `_load_full_period`
(lines 439-536).  `fuel` is a structural-recursion bound only; the Python
loop needs at most `(end - start) / 60000 + 1` iterations because the cursor
advances by at least 60000 each round, and `loadFullPeriod` passes more than
that (`loadLoop_fuel_irrel` below shows any sufficient fuel gives the same
result).  Each iteration: `limit = min(remaining + 10, 1000)`; a non-200
status or nonzero `retCode` returns `False` at once; an empty page breaks;
otherwise the page is reversed and processed, the cursor becomes
`last_timestamp + 60000`, and a short page (`len < limit`) breaks.
`pageLimit` is `min(remaining_minutes + 10, max_limit)` with `max_limit =
1000` (lines 441-442). -/
def pageLimit (endMs cur : Nat) : Nat :=
  min ((endMs - cur) / 60000 + 10) 1000

def loadLoop (fetch : Nat → Nat → KlineResponse) (startMs endMs : Nat) :
    Nat → Nat → KlineDB → LoadResult
  | 0, _, db => ⟨db, 0, 0, true, []⟩
  | fuel + 1, cur, db =>
    if cur < endMs then
      let limit := pageLimit endMs cur
      if limit = 0 then ⟨db, 0, 0, true, []⟩
      else
        let resp := fetch cur limit
        if resp.status ≠ 200 then ⟨db, 0, 0, false, [resp]⟩
        else if resp.retCode = 0 then
          if resp.rows.isEmpty then ⟨db, 0, 0, true, [resp]⟩
          else
            let pr := processKlines startMs endMs resp.rows.reverse db cur
            if resp.rows.length < limit then
              ⟨pr.db, pr.loaded, pr.skipped, true, [resp]⟩
            else
              let rest := loadLoop fetch startMs endMs fuel (pr.last + 60000) pr.db
              ⟨rest.db, pr.loaded + rest.loaded, pr.skipped + rest.skipped,
                rest.ok, resp :: rest.reqs⟩
        else ⟨db, 0, 0, false, [resp]⟩
    else ⟨db, 0, 0, true, []⟩

/-- `_load_full_period(symbol, start_time_ms, end_time_ms)` for one symbol:
runs the pagination loop from `current_start = start_time_ms`. -/
def loadFullPeriod (fetch : Nat → Nat → KlineResponse) (startMs endMs : Nat)
    (db : KlineDB) : LoadResult :=
  loadLoop fetch startMs endMs (endMs - startMs + 1) startMs db

/-- A page request that `_load_full_period` treats as a failure: a non-200
HTTP status (`response.status_code != 200`) or a non-success API return code
(`data.get('retCode') != 0`). -/
def isErrorResponse (r : KlineResponse) : Bool :=
  decide (r.status ≠ 200) || decide (r.retCode ≠ 0)

/-- Spec-side predicate for C6: a fetched row whose raw timestamp lies in the
half-open backfill range `[start_ms, end_ms)`. -/
def inWindowRow (startMs endMs : Nat) (k : BybitKline) : Bool :=
  decide (startMs ≤ k.ts) && decide (k.ts < endMs)

/-- Spec-side write step for C6 (amended claim wording): check existence by
the rounded key, write only if absent, count loads and skips. -/
def specWriteStep (a : KlineDB × Nat × Nat) (k : BybitKline) : KlineDB × Nat × Nat :=
  if check_candle_exists a.1 (roundDownMinute k.ts) then (a.1, a.2.1, a.2.2 + 1)
  else (a.1 ++ [histCandleOf k], a.2.1 + 1, a.2.2)

/-- Spec-side page processing for C6: reverse the newest-first page to
chronological order, drop the rows outside `[start_ms, end_ms)`, then write
the remaining rows in order. -/
def specProcessPage (startMs endMs : Nat) (page : List BybitKline) (db : KlineDB) :
    KlineDB × Nat × Nat :=
  ((page.reverse.filter (inWindowRow startMs endMs)).foldl specWriteStep (db, 0, 0))

/-- Spec-side cursor advance for C6 (amended claim wording): the maximum of
the current cursor and the raw timestamps of the in-range rows, plus
60000 ms; rows outside the range do not advance the cursor. -/
def specNextCursor (startMs endMs cur : Nat) (page : List BybitKline) : Nat :=
  ((page.reverse.filter (inWindowRow startMs endMs)).map BybitKline.ts).foldl max cur
    + 60000

/-- The pagination loop assembled from the spec-side pieces above, with the
same termination conditions as the code: error response, empty page, short
page, or cursor at or past `end_ms`. -/
def loadLoopSpec (fetch : Nat → Nat → KlineResponse) (startMs endMs : Nat) :
    Nat → Nat → KlineDB → LoadResult
  | 0, _, db => ⟨db, 0, 0, true, []⟩
  | fuel + 1, cur, db =>
    if cur < endMs then
      let limit := pageLimit endMs cur
      if limit = 0 then ⟨db, 0, 0, true, []⟩
      else
        let resp := fetch cur limit
        if resp.status ≠ 200 then ⟨db, 0, 0, false, [resp]⟩
        else if resp.retCode = 0 then
          if resp.rows.isEmpty then ⟨db, 0, 0, true, [resp]⟩
          else
            let p := specProcessPage startMs endMs resp.rows db
            if resp.rows.length < limit then
              ⟨p.1, p.2.1, p.2.2, true, [resp]⟩
            else
              let rest := loadLoopSpec fetch startMs endMs fuel
                (specNextCursor startMs endMs cur resp.rows) p.1
              ⟨rest.db, p.2.1 + rest.loaded, p.2.2 + rest.skipped,
                rest.ok, resp :: rest.reqs⟩
        else ⟨db, 0, 0, false, [resp]⟩
    else ⟨db, 0, 0, true, []⟩

/-! ## Window maintenance (`_maintain_exact_data_range`, `database.py` deletes) -/

/-- The end of the retention window: the current time rounded down to the
start of the current minute (`current_minute_ms`, line 1016). -/
def window_end_ms (nowMs : Nat) : Nat := nowMs / 60000 * 60000

/-- The start of the retention window: exactly
`retention_hours + analysis_hours` hours before `current_minute_ms`
(line 1019). -/
def window_start_ms (retentionHours analysisHours nowMs : Nat) : Nat :=
  window_end_ms nowMs - (retentionHours + analysisHours) * 60 * 60 * 1000

/-- `cleanup_old_candles_before_time` (`database.py` 621): `DELETE FROM
kline_data WHERE symbol = %s AND timestamp_ms < %s`; the rows that survive
are those with `timestamp_ms >= before`. -/
def cleanup_old_candles_before_time (db : KlineDB) (beforeMs : Nat) : KlineDB :=
  db.filter fun c => decide (beforeMs ≤ c.timestampMs)

/-- `cleanup_future_candles_after_time` (`database.py` 639): `DELETE FROM
kline_data WHERE symbol = %s AND timestamp_ms >= %s`. -/
def cleanup_future_candles_after_time (db : KlineDB) (afterMs : Nat) : KlineDB :=
  db.filter fun c => decide (c.timestampMs < afterMs)

/-- `check_data_integrity_range` (`database.py` 562):
`(total_expected, total_existing, missing_count)` over `[start_ms, end_ms)`,
counting closed candles only; `missing = max(0, expected - existing)` is the
truncated `Nat` subtraction. -/
def check_data_integrity_range (db : KlineDB) (startMs endMs : Nat) :
    Nat × Nat × Nat :=
  let expected := (endMs - startMs) / 60000
  let existing := (db.filter fun c =>
    decide (startMs ≤ c.timestampMs) && decide (c.timestampMs < endMs) &&
      c.isClosed).length
  (expected, existing, expected - existing)

/-- `_maintain_exact_data_range(symbol)` (lines 1002-1060): compute the
window, delete candles before its start and at or after its end, check
integrity, and if more than 10 candles are missing run `_load_full_period`
over exactly the window range. -/
def maintain_exact_data_range (fetch : Nat → Nat → KlineResponse)
    (retentionHours analysisHours nowMs : Nat) (db : KlineDB) : KlineDB :=
  let startMs := window_start_ms retentionHours analysisHours nowMs
  let endMs := window_end_ms nowMs
  let db1 := cleanup_old_candles_before_time db startMs
  let db2 := cleanup_future_candles_after_time db1 endMs
  let r := check_data_integrity_range db2 startMs endMs
  if 10 < r.2.2 then (loadFullPeriod fetch startMs endMs db2).db else db2

/-! ## Connection lifecycle (`_websocket_connection_loop`, lines 581-604) -/

/-- `self.max_reconnect_attempts` (line 50). -/
def max_reconnect_attempts : Nat := 10

/-- `self.reconnect_delay` in seconds (line 51). -/
def reconnect_delay : Nat := 5

/-- What one run of `_websocket_connection_loop` does: the backoff delays it
sleeps, whether it stopped permanently (`is_running = False` after exceeding
the attempt budget), and the final reconnect counter. -/
structure ReconnectResult where
  delays : List Nat
  stopped : Bool
  finalAttempts : Nat
deriving DecidableEq, Repr

/-- `_websocket_connection_loop`: each list element is the outcome of one
`_connect_websocket` call (`true` = returned normally, which resets the
counter to 0; `false` = raised).  On a failure the counter is incremented;
while it stays at or below `max_reconnect_attempts` the loop sleeps
`min(reconnect_delay * counter, 60)` and retries, otherwise it sets
`is_running = False` and breaks, processing nothing further. -/
def websocket_connection_loop : List Bool → Nat → ReconnectResult
  | [], attempts => ⟨[], false, attempts⟩
  | outcome :: rest, attempts =>
    if outcome then websocket_connection_loop rest 0
    else
      let a := attempts + 1
      if a ≤ max_reconnect_attempts then
        let r := websocket_connection_loop rest a
        ⟨min (reconnect_delay * a) 60 :: r.delays, r.stopped, r.finalAttempts⟩
      else ⟨[], true, a⟩

/-! ## Subscription state (`subscribed_pairs`, `subscription_pending`,
`failed_subscriptions`) -/

/-- The shared subscription state of `BybitWebSocketClient`:
`trading_pairs`, `subscription_pending`, `subscribed_pairs`,
`failed_subscriptions` and the `websocket_connected` flag. -/
structure SubState where
  trading : Finset String
  pending : Finset String
  subscribed : Finset String
  failed : Finset String
  connected : Bool
deriving DecidableEq

/-- Splitting a pair list into batches of 50 (`batch_size = 50` in
`_subscribe_to_pairs`); the counter only bounds the recursion and
`chunkPairs` supplies one that never runs out. -/
def chunkPairsGo : Nat → List String → List (List String)
  | 0, _ => []
  | _, [] => []
  | n + 1, l@(_ :: _) => l.take 50 :: chunkPairsGo n (l.drop 50)

/-- The batches of 50 that `_subscribe_to_pairs` sends. -/
def chunkPairs (l : List String) : List (List String) :=
  chunkPairsGo l.length l

/-- The per-batch body of `_subscribe_to_pairs` (lines 706-744): a batch
whose send succeeds is added to `subscription_pending`; a batch whose send
raises is added to `failed_subscriptions`.  `sendOk i` is the outcome of the
`websocket.send` for batch `i`. -/
def subGo (sendOk : Nat → Bool) : List (List String) → Nat → SubState → SubState
  | [], _, σ => σ
  | b :: rest, i, σ =>
    let σ' :=
      if sendOk i then { σ with pending := σ.pending ∪ b.toFinset }
      else { σ with failed := σ.failed ∪ b.toFinset }
    subGo sendOk rest (i + 1) σ'

/-- `_subscribe_to_pairs(pairs)`. -/
def subscribe_to_pairs (sendOk : Nat → Bool) (pairsList : List String)
    (σ : SubState) : SubState :=
  subGo sendOk (chunkPairs pairsList) 0 σ

/-- `_connect_websocket` up to the message loop (lines 620-631): set
`websocket_connected`, clear the three subscription sets, subscribe the full
trading set. -/
def connectOp (sendOk : Nat → Bool) (order : List String) (σ : SubState) : SubState :=
  subscribe_to_pairs sendOk order
    { σ with pending := ∅, subscribed := ∅, failed := ∅, connected := true }

/-- The `finally` of `_connect_websocket`: the session ends,
`websocket_connected = False`; the subscription sets are left as they are. -/
def disconnectOp (σ : SubState) : SubState := { σ with connected := false }

/-- The subscription-state effect of a kline message in `_handle_message`
(lines 1111-1122): a symbol outside `trading_pairs` is dropped; a tracked
one is removed from `subscription_pending` and `failed_subscriptions` and
added to `subscribed_pairs`. -/
def tickObserved (s : String) (σ : SubState) : SubState :=
  if s ∈ σ.trading then
    { σ with pending := σ.pending.erase s, failed := σ.failed.erase s,
             subscribed := insert s σ.subscribed }
  else σ

/-- One pass of `_subscription_retry_manager` (lines 770-777): copy the
failed set, clear it, and re-run `_subscribe_to_pairs` on the copy. -/
def retryOp (sendOk : Nat → Bool) (order : List String) (σ : SubState) : SubState :=
  subscribe_to_pairs sendOk order { σ with failed := ∅ }

/-- `handle_pairs_update` plus `_update_subscriptions` (lines 898-960):
`trading_pairs` is updated with the additions and removals; if the websocket
is connected the removed pairs are dropped from `subscribed_pairs` only
(not from `pending` or `failed`) and the new pairs are subscribed. -/
def pairsUpdateOp (dbPairs : Finset String) (sendOk : Nat → Bool)
    (order : List String) (σ : SubState) : SubState :=
  let newPairs := dbPairs \ σ.trading
  let removedPairs := σ.trading \ dbPairs
  let σ1 := { σ with trading := (σ.trading ∪ newPairs) \ removedPairs }
  if σ.connected then
    subscribe_to_pairs sendOk order
      { σ1 with subscribed := σ1.subscribed \ removedPairs }
  else σ1

/-- The subscription states the client can reach: the constructor arguments
mirror the call sites (the connect subscribe covers `trading_pairs`, the
retry subscribe covers the copied `failed` set, the pairs-update subscribe
covers exactly the new pairs, ticks and retries need a live websocket). -/
inductive Reach : SubState → Prop where
  | init (t0 : Finset String) : Reach ⟨t0, ∅, ∅, ∅, false⟩
  | connect {σ : SubState} (sendOk : Nat → Bool) (order : List String) :
      Reach σ → order.toFinset = σ.trading → Reach (connectOp sendOk order σ)
  | disconnect {σ : SubState} : Reach σ → Reach (disconnectOp σ)
  | tick {σ : SubState} (s : String) :
      Reach σ → σ.connected = true → Reach (tickObserved s σ)
  | retry {σ : SubState} (sendOk : Nat → Bool) (order : List String) :
      Reach σ → σ.connected = true → order.toFinset = σ.failed →
      Reach (retryOp sendOk order σ)
  | pairsUpdate {σ : SubState} (dbPairs : Finset String) (sendOk : Nat → Bool)
      (order : List String) :
      Reach σ → order.toFinset = dbPairs \ σ.trading →
      Reach (pairsUpdateOp dbPairs sendOk order σ)

/-! ## Closed-candle processing (`_process_closed_candle`, `_handle_message`) -/

/-- State touched by kline-message handling: the subscription state, the
`processed_candles` dedup map, the log of candles forwarded to alert
evaluation, and the log of `save_kline_data` writes
`(symbol, start_ms, is_closed)`. -/
structure TickState where
  sub : SubState
  processedCandles : List (String × Nat)
  alertsLog : List (String × Nat)
  savedKlines : List (String × Nat × Bool)
deriving DecidableEq

/-- `self.processed_candles.get(symbol, 0)`. -/
def lastProcessed (l : List (String × Nat)) (s : String) : Nat :=
  match l.find? (fun p => p.1 == s) with
  | some p => p.2
  | none => 0

/-- `_process_closed_candle` (lines 1181-1198): forward the candle to alert
evaluation and record its `start_ms` only when it is strictly newer than the
last processed `start_ms` for the symbol. -/
def process_closed_candle (st : TickState) (symbol : String) (startMs : Nat) :
    TickState :=
  if lastProcessed st.processedCandles symbol < startMs then
    { st with alertsLog := st.alertsLog ++ [(symbol, startMs)],
              processedCandles := (symbol, startMs) :: st.processedCandles }
  else st

/-- The kline branch of `_handle_message` (lines 1106-1176): untracked
symbols are dropped; for a tracked symbol the subscription sets are updated,
a closed candle's timestamps are rounded to the minute and deduplicated
through `_process_closed_candle`, and `save_kline_data` is called for every
message, closed or not. -/
def handle_kline_message (st : TickState) (symbol : String) (rawStart : Nat)
    (confirm : Bool) : TickState :=
  if symbol ∈ st.sub.trading then
    let st1 := { st with sub := tickObserved symbol st.sub }
    let startMs := if confirm then roundDownMinute rawStart else rawStart
    let st2 := if confirm then process_closed_candle st1 symbol startMs else st1
    { st2 with savedKlines := st2.savedKlines ++ [(symbol, startMs, confirm)] }
  else st

/-! ## Startup data classification (`_smart_analyze_pairs_data_status`) -/

/-- `self.min_integrity_for_skip` (line 67). -/
def min_integrity_for_skip : ℚ := 85

/-- `self.min_candles_for_skip` (line 68). -/
def min_candles_for_skip : Nat := 30

/-- `self.max_data_age_hours` (line 69). -/
def max_data_age_hours : ℚ := 6

/-- `self.data_load_cooldown` in seconds (line 55). -/
def data_load_cooldown : ℚ := 3600

/-- `integrity_percentage` as `check_data_integrity` computes it
(`database.py` 541): `actual / expected * 100` when `expected > 0`, else 0. -/
def integrity_percentage (totalExisting expectedCount : Nat) : ℚ :=
  if 0 < expectedCount then (totalExisting : ℚ) / (expectedCount : ℚ) * 100 else 0

/-- `data_age_hours` (lines 224-227): hours since the latest closed candle,
0 when the symbol has none. -/
def data_age_hours (nowMs : Nat) (latest : Option Nat) : ℚ :=
  match latest with
  | some t => ((nowMs : ℚ) - (t : ℚ)) / (1000 * 60 * 60)
  | none => 0

/-- The four buckets of `_smart_analyze_pairs_data_status`. -/
inductive PairDataStatus where
  | hasData
  | partialData
  | outdatedData
  | needsLoading
deriving DecidableEq, Repr

/-- The if/elif classification of lines 232-251, applied to one symbol's
integrity data and data age. -/
def classify_pair_data (totalExisting expectedCount : Nat) (age : ℚ) :
    PairDataStatus :=
  let pct := integrity_percentage totalExisting expectedCount
  if min_integrity_for_skip ≤ pct ∧ min_candles_for_skip ≤ totalExisting ∧
      age ≤ max_data_age_hours then
    .hasData
  else if 20 ≤ totalExisting ∧ 60 ≤ pct ∧ age ≤ max_data_age_hours then
    .partialData
  else if min_candles_for_skip ≤ totalExisting ∧ max_data_age_hours < age then
    .outdatedData
  else
    .needsLoading

/-- The four lists `_smart_analyze_pairs_data_status` returns. -/
structure PairsAnalysis where
  hasData : List String
  partialData : List String
  needsLoading : List String
  outdatedData : List String
deriving DecidableEq, Repr

/-- `_smart_analyze_pairs_data_status(hours_needed)` (lines 193-262):
a symbol loaded less than `data_load_cooldown` seconds ago (a truthy
`last_data_load_time` entry) is put in `has_data` without an integrity
check; otherwise the symbol is classified from its integrity data
(`expected = hours_needed * 60`) and data age. -/
def smart_analyze_pairs (lastLoadMs : String → Option Nat)
    (existingCount : String → Nat) (latestCandleMs : String → Option Nat)
    (hoursNeeded : Nat) (nowMs : Nat) : List String → PairsAnalysis
  | [] => ⟨[], [], [], []⟩
  | s :: rest =>
    let A := smart_analyze_pairs lastLoadMs existingCount latestCandleMs
      hoursNeeded nowMs rest
    let cooldownHit :=
      match lastLoadMs s with
      | some t =>
        decide (t ≠ 0) && decide (((nowMs : ℚ) - (t : ℚ)) / 1000 < data_load_cooldown)
      | none => false
    if cooldownHit then { A with hasData := s :: A.hasData }
    else
      match classify_pair_data (existingCount s) (hoursNeeded * 60)
        (data_age_hours nowMs (latestCandleMs s)) with
      | .hasData => { A with hasData := s :: A.hasData }
      | .partialData => { A with partialData := s :: A.partialData }
      | .outdatedData => { A with outdatedData := s :: A.outdatedData }
      | .needsLoading => { A with needsLoading := s :: A.needsLoading }

/-- The symbols for which `_smart_check_and_load_historical_data`
(lines 156-169) makes exchange requests: full load for `needs_loading`,
top-up for `partial_data`, recent update for `outdated_data`; the
`has_data` pairs are skipped. -/
def pairs_loaded_at_startup (A : PairsAnalysis) : List String :=
  A.needsLoading ++ A.partialData ++ A.outdatedData

/-! ## Stream health monitor (`_stream_monitor`, lines 788-862) -/

/-- `self.stream_timeout_seconds` (line 73). -/
def stream_timeout_seconds : ℚ := 300

/-- The per-symbol classification loop of `_stream_monitor` (lines 802-821):
a symbol with data is `inactive` when `now - last > stream_timeout_seconds`
and additionally `critical` when `now - last > 300`; a symbol that never
received data is both.  Returns `(inactive_pairs, critical_pairs)` in
iteration order. -/
def stream_classify (lastData : String → Option ℚ) (now : ℚ) :
    List String → List String × List String
  | [] => ([], [])
  | s :: rest =>
    let p := stream_classify lastData now rest
    match lastData s with
    | some t =>
      if stream_timeout_seconds < now - t then
        (s :: p.1, if (300 : ℚ) < now - t then s :: p.2 else p.2)
      else p
    | none => (s :: p.1, s :: p.2)

/-- One health snapshot of `_stream_monitor`. -/
structure StreamHealth where
  inactivePairs : List String
  criticalPairs : List String
  forceReconnect : Bool
deriving DecidableEq, Repr

/-- One pass of `_stream_monitor` (lines 797-858): classify every tracked
symbol, then force a reconnect (`websocket.close()`) when
`len(critical) >= max(1, 0.3 * n)`, or failing that when
`len(inactive) > 0.5 * n`. -/
def stream_monitor_pass (trading : List String) (lastData : String → Option ℚ)
    (now : ℚ) : StreamHealth :=
  let p := stream_classify lastData now trading
  let criticalThreshold : ℚ := max 1 ((trading.length : ℚ) * (3 / 10))
  let reconnect :=
    if criticalThreshold ≤ (p.2.length : ℚ) then true
    else if (trading.length : ℚ) * (1 / 2) < (p.1.length : ℚ) then true
    else false
  ⟨p.1, p.2, reconnect⟩

/-! ## Concrete instances used by witnesses and counterexamples -/

/-- A kline row with timestamp `t` and unit OHLCV values. -/
def mkRow (t : Nat) : BybitKline := ⟨t, 1, 1, 1, 1, 1⟩

/-- A concrete exchange for the pagination counterexample: the first page
(20 rows, newest first) contains one row at exactly `end_ms = 600000` — the
REST `end` bound is inclusive, so the current in-progress minute can appear —
and 19 rows at timestamp 0; every later request returns an empty page. -/
def exFetch : Nat → Nat → KlineResponse := fun cur _ =>
  if cur = 0 then ⟨200, 0, mkRow 600000 :: List.replicate 19 (mkRow 0)⟩
  else ⟨200, 0, []⟩

/-- The maximum raw timestamp observed in a page (0 for an empty page). -/
def pageMaxTs (page : List BybitKline) : Nat :=
  (page.map BybitKline.ts).foldl max 0

/-- An exchange that always answers success with an empty list. -/
def emptyFetch : Nat → Nat → KlineResponse := fun _ _ => ⟨200, 0, []⟩

/-- A stored candle at the very start of the witness window. -/
def wCandle : StoredCandle := ⟨3600000, 1, 1, 1, 1, 1, true⟩

/-- A reachable subscription state for the invariant witness: connect with
one pair, then observe a tick for it. -/
def wSub : SubState :=
  tickObserved "BTCUSDT"
    (connectOp (fun _ => true) ["BTCUSDT"] ⟨{"BTCUSDT"}, ∅, ∅, ∅, false⟩)

/-- The counterexample trace for the disjointness claim: subscribe
`BTCUSDT` (it becomes pending), remove it from the watchlist (unsubscribe
clears it from `subscribed` only), re-add it with a failing subscribe
batch. -/
def cexSub : SubState :=
  pairsUpdateOp {"BTCUSDT"} (fun _ => false) ["BTCUSDT"]
    (pairsUpdateOp ∅ (fun _ => true) []
      (connectOp (fun _ => true) ["BTCUSDT"] ⟨{"BTCUSDT"}, ∅, ∅, ∅, false⟩))

/-- A tick-handling state for the dedup witness: `BTCUSDT` tracked, last
processed closed candle at `start_ms = 60000`. -/
def wTick : TickState :=
  ⟨⟨{"BTCUSDT"}, {"BTCUSDT"}, ∅, ∅, true⟩, [("BTCUSDT", 60000)], [], []⟩

/-- The strengthened invariant the reachable subscription states satisfy:
when connected, `subscribed` only holds tracked pairs; `subscribed` and
`failed` never intersect; `pending` and `subscribed` never intersect. -/
def SubInv (σ : SubState) : Prop :=
  (σ.connected = true → σ.subscribed ⊆ σ.trading) ∧
    (∀ x, x ∈ σ.subscribed → x ∉ σ.failed) ∧
    (∀ x, x ∈ σ.pending → x ∉ σ.subscribed)

/-! ## C1: reconnect backoff -/

/-- How `_websocket_connection_loop` behaves on a run of consecutive
connection failures starting from any counter value `a ≤ 10`. -/
theorem connection_loop_replicate (k : Nat) :
    ∀ a : Nat, a ≤ max_reconnect_attempts →
      websocket_connection_loop (List.replicate k false) a =
        ⟨(List.range (min k (max_reconnect_attempts - a))).map
            (fun i => min (reconnect_delay * (a + i + 1)) 60),
          decide (max_reconnect_attempts - a < k),
          if max_reconnect_attempts - a < k then max_reconnect_attempts + 1
          else a + k⟩ := by
  simp only [max_reconnect_attempts, reconnect_delay]
  induction k with
  | zero =>
    intro a ha
    simp only [List.replicate_zero, websocket_connection_loop,
      ReconnectResult.mk.injEq]
    refine ⟨by simp, by simp, by simp [Nat.not_lt_zero]⟩
  | succ k ih =>
    intro a ha
    rw [List.replicate_succ]
    simp only [websocket_connection_loop, Bool.false_eq_true, if_false,
      max_reconnect_attempts, reconnect_delay]
    by_cases hA : a + 1 ≤ 10
    · rw [if_pos hA, ih (a + 1) hA]
      simp only [ReconnectResult.mk.injEq]
      have h10 : 10 - a = (10 - (a + 1)) + 1 := by omega
      have hmin : min (k + 1) (10 - a) = min k (10 - (a + 1)) + 1 := by
        rw [h10]; exact Nat.succ_min_succ k (10 - (a + 1))
      refine ⟨?_, ?_, ?_⟩
      · rw [hmin, List.range_succ_eq_map, List.map_cons, List.map_map]
        refine congrArg₂ List.cons (by norm_num) ?_
        refine List.map_congr_left fun i _ => ?_
        simp only [Function.comp_apply]
        congr 1
        omega
      · exact decide_eq_decide.mpr (by omega)
      · have : (10 - (a + 1) < k) ↔ (10 - a < k + 1) := by omega
        by_cases hk : 10 - (a + 1) < k
        · rw [if_pos hk, if_pos (this.mp hk)]
        · rw [if_neg hk, if_neg (fun hc => hk (this.mpr hc))]
          omega
    · rw [if_neg hA]
      have ha10 : a = 10 := by omega
      subst ha10
      simp only [ReconnectResult.mk.injEq, Nat.sub_self]
      refine ⟨by simp, by simp, by simp⟩

/-- C1: for every reconnect attempt `n` in `1..max_reconnect_attempts` the
slept delay equals `min(reconnect_delay * n, 60)` (the delays of an all-fail
run are exactly that sequence), and once the counter exceeds
`max_reconnect_attempts` the loop stops permanently
(`is_running = False`) having scheduled exactly `max_reconnect_attempts`
delays, no matter how many further failures follow. -/
theorem connection_loop_backoff (k : Nat) :
    (websocket_connection_loop (List.replicate k false) 0).delays =
      (List.range (min k max_reconnect_attempts)).map
        (fun n => min (reconnect_delay * (n + 1)) 60) ∧
    (websocket_connection_loop (List.replicate k false) 0).stopped =
      decide (max_reconnect_attempts < k) ∧
    (websocket_connection_loop (List.replicate k false) 0).delays.length =
      min k max_reconnect_attempts := by
  rw [connection_loop_replicate k 0 (Nat.zero_le _)]
  simp only [max_reconnect_attempts, reconnect_delay, Nat.sub_zero,
    Nat.zero_add, List.length_map, List.length_range]
  exact ⟨trivial, trivial, trivial⟩

/-! ## C9: tick-driven promotion -/

/-- C9: a live tick for a tracked symbol that is pending or failed promotes
it to `subscribed_pairs` and removes it from both `subscription_pending` and
`failed_subscriptions`. -/
theorem tick_promotes_subscription (σ : SubState) (s : String)
    (hs : s ∈ σ.trading) (_hpf : s ∈ σ.pending ∨ s ∈ σ.failed) :
    s ∈ (tickObserved s σ).subscribed ∧ s ∉ (tickObserved s σ).pending ∧
      s ∉ (tickObserved s σ).failed := by
  simp [tickObserved, hs]

/-- Witness for C9 at a concrete pending symbol. -/
theorem tick_promotes_subscription_witness :
    "BTCUSDT" ∈ (tickObserved "BTCUSDT" wTick.sub).subscribed ∧
      "BTCUSDT" ∉ (tickObserved "BTCUSDT" wTick.sub).pending ∧
      "BTCUSDT" ∉ (tickObserved "BTCUSDT" wTick.sub).failed :=
  tick_promotes_subscription wTick.sub "BTCUSDT" (by decide) (Or.inl (by decide))

/-! ## C10: closed-candle deduplication -/

/-- C10: a closed candle for a tracked symbol is forwarded to alert
evaluation iff its rounded `start_ms` is strictly greater than the last
processed one; the per-symbol last-processed timestamp becomes the max of
the two (so it never decreases); and the candle is saved to storage either
way. -/
theorem closed_candle_dedup (st : TickState) (s : String) (t : Nat)
    (hs : s ∈ st.sub.trading) :
    (handle_kline_message st s t true).alertsLog =
      st.alertsLog ++
        (if lastProcessed st.processedCandles s < roundDownMinute t then
          [(s, roundDownMinute t)] else []) ∧
    lastProcessed (handle_kline_message st s t true).processedCandles s =
      max (lastProcessed st.processedCandles s) (roundDownMinute t) ∧
    lastProcessed st.processedCandles s ≤
      lastProcessed (handle_kline_message st s t true).processedCandles s ∧
    (handle_kline_message st s t true).savedKlines =
      st.savedKlines ++ [(s, roundDownMinute t, true)] := by
  have hfind : lastProcessed ((s, roundDownMinute t) :: st.processedCandles) s =
      roundDownMinute t := by
    rw [lastProcessed, List.find?_cons_of_pos _ (by simp)]
  by_cases hlt : lastProcessed st.processedCandles s < roundDownMinute t
  · have h1 : handle_kline_message st s t true =
        { st with sub := tickObserved s st.sub,
                  processedCandles := (s, roundDownMinute t) :: st.processedCandles,
                  alertsLog := st.alertsLog ++ [(s, roundDownMinute t)],
                  savedKlines := st.savedKlines ++ [(s, roundDownMinute t, true)] } := by
      simp [handle_kline_message, hs, process_closed_candle, hlt]
    rw [h1]
    refine ⟨by simp [hlt], ?_, ?_, rfl⟩
    · rw [hfind, Nat.max_eq_right (Nat.le_of_lt hlt)]
    · rw [hfind]
      exact Nat.le_of_lt hlt
  · have h1 : handle_kline_message st s t true =
        { st with sub := tickObserved s st.sub,
                  savedKlines := st.savedKlines ++ [(s, roundDownMinute t, true)] } := by
      simp [handle_kline_message, hs, process_closed_candle, hlt]
    rw [h1]
    refine ⟨by simp [hlt], ?_, le_refl _, rfl⟩
    exact (Nat.max_eq_left (Nat.le_of_not_lt hlt)).symm

/-- Witness for C10: a duplicate closed candle (same minute as the last
processed one) is saved but not re-evaluated. -/
theorem closed_candle_dedup_witness :
    (handle_kline_message wTick "BTCUSDT" 60000 true).alertsLog =
      wTick.alertsLog ++
        (if lastProcessed wTick.processedCandles "BTCUSDT" <
            roundDownMinute 60000 then [("BTCUSDT", roundDownMinute 60000)]
          else []) ∧
    lastProcessed
        (handle_kline_message wTick "BTCUSDT" 60000 true).processedCandles
        "BTCUSDT" =
      max (lastProcessed wTick.processedCandles "BTCUSDT")
        (roundDownMinute 60000) ∧
    lastProcessed wTick.processedCandles "BTCUSDT" ≤
      lastProcessed
        (handle_kline_message wTick "BTCUSDT" 60000 true).processedCandles
        "BTCUSDT" ∧
    (handle_kline_message wTick "BTCUSDT" 60000 true).savedKlines =
      wTick.savedKlines ++ [("BTCUSDT", roundDownMinute 60000, true)] :=
  closed_candle_dedup wTick "BTCUSDT" 60000 (by decide)

/-! ## C7: startup data-status classification -/

/-- C7: the startup classification is exactly the four-way threshold rule of
the spec, with first-match priority (`sufficient`, then `partial`, then
`outdated`, otherwise full load); and the `ETHUSDT` scenario — 175 of 180
candles (97.2% integrity), data age 1 hour, never loaded before — is
classified `has_data` and excluded from every startup load list, so no
exchange request is made for it. -/
theorem classify_pairs_spec :
    (∀ existing expected : Nat, ∀ age : ℚ,
      (classify_pair_data existing expected age = .hasData ↔
        min_integrity_for_skip ≤ integrity_percentage existing expected ∧
          min_candles_for_skip ≤ existing ∧ age ≤ max_data_age_hours) ∧
      (classify_pair_data existing expected age = .partialData ↔
        ¬(min_integrity_for_skip ≤ integrity_percentage existing expected ∧
            min_candles_for_skip ≤ existing ∧ age ≤ max_data_age_hours) ∧
          (20 ≤ existing ∧ 60 ≤ integrity_percentage existing expected ∧
            age ≤ max_data_age_hours)) ∧
      (classify_pair_data existing expected age = .outdatedData ↔
        ¬(min_integrity_for_skip ≤ integrity_percentage existing expected ∧
            min_candles_for_skip ≤ existing ∧ age ≤ max_data_age_hours) ∧
          ¬(20 ≤ existing ∧ 60 ≤ integrity_percentage existing expected ∧
            age ≤ max_data_age_hours) ∧
          (min_candles_for_skip ≤ existing ∧ max_data_age_hours < age)) ∧
      (classify_pair_data existing expected age = .needsLoading ↔
        ¬(min_integrity_for_skip ≤ integrity_percentage existing expected ∧
            min_candles_for_skip ≤ existing ∧ age ≤ max_data_age_hours) ∧
          ¬(20 ≤ existing ∧ 60 ≤ integrity_percentage existing expected ∧
            age ≤ max_data_age_hours) ∧
          ¬(min_candles_for_skip ≤ existing ∧ max_data_age_hours < age))) ∧
    classify_pair_data 175 180 1 = .hasData ∧
    (smart_analyze_pairs (fun _ => none) (fun _ => 175) (fun _ => some 3600000)
        3 7200000 ["ETHUSDT"]).hasData = ["ETHUSDT"] ∧
    "ETHUSDT" ∉ pairs_loaded_at_startup
      (smart_analyze_pairs (fun _ => none) (fun _ => 175) (fun _ => some 3600000)
        3 7200000 ["ETHUSDT"]) := by
  have hage : data_age_hours 7200000 (some 3600000) = 1 := by
    simp only [data_age_hours]
    norm_num
  have hc2 : classify_pair_data 175 180 1 = .hasData := by
    simp only [classify_pair_data, integrity_percentage, min_integrity_for_skip,
      min_candles_for_skip, max_data_age_hours]
    norm_num
  have hc : classify_pair_data 175 (3 * 60) (data_age_hours 7200000 (some 3600000)) =
      .hasData := by
    rw [hage]
    exact hc2
  have hA : smart_analyze_pairs (fun _ => none) (fun _ => 175)
      (fun _ => some 3600000) 3 7200000 ["ETHUSDT"] = ⟨["ETHUSDT"], [], [], []⟩ := by
    simp [smart_analyze_pairs, hc]
  refine ⟨fun existing expected age => ⟨?_, ?_, ?_, ?_⟩, hc2, by rw [hA], by
    rw [hA]; simp [pairs_loaded_at_startup]⟩
  · simp only [classify_pair_data]
    split_ifs with h1 h2 h3
    · exact iff_of_true rfl h1
    · exact iff_of_false (by simp) h1
    · exact iff_of_false (by simp) h1
    · exact iff_of_false (by simp) h1
  · simp only [classify_pair_data]
    split_ifs with h1 h2 h3
    · exact iff_of_false (by simp) fun h => h.1 h1
    · exact iff_of_true rfl ⟨h1, h2⟩
    · exact iff_of_false (by simp) fun h => h2 h.2
    · exact iff_of_false (by simp) fun h => h2 h.2
  · simp only [classify_pair_data]
    split_ifs with h1 h2 h3
    · exact iff_of_false (by simp) fun h => h.1 h1
    · exact iff_of_false (by simp) fun h => h.2.1 h2
    · exact iff_of_true rfl ⟨h1, h2, h3⟩
    · exact iff_of_false (by simp) fun h => h3 h.2.2
  · simp only [classify_pair_data]
    split_ifs with h1 h2 h3
    · exact iff_of_false (by simp) fun h => h.1 h1
    · exact iff_of_false (by simp) fun h => h.2.1 h2
    · exact iff_of_false (by simp) fun h => h.2.2 h3
    · exact iff_of_true rfl ⟨h1, h2, h3⟩

/-! ## C8: stream-health classification and forced reconnect -/

/-- Counterexample to C8 as stated: with the last tick for `AAAUSDT` exactly
`300` seconds old — at least the code's critical threshold of 300 s — the
monitor pass reports no critical pair, because the code uses a strict
comparison (`time_since_last > 300`). -/
theorem stream_monitor_critical_at_threshold_cex :
    ((300 : ℚ) - 0 ≥ 300) ∧
      "AAAUSDT" ∉ (stream_monitor_pass ["AAAUSDT"] (fun _ => some 0)
        300).criticalPairs := by
  have h : stream_classify (fun _ => some 0) 300 ["AAAUSDT"] = ([], []) := by
    simp only [stream_classify, stream_timeout_seconds]
    norm_num
  refine ⟨by norm_num, ?_⟩
  simp [stream_monitor_pass, h]

/-- Helper: in `_stream_monitor` the inactive and the critical list are the
same list, because `stream_timeout_seconds` and the hard-coded critical
cutoff are both 300 seconds. -/
theorem stream_classify_lists_eq (lastData : String → Option ℚ) (now : ℚ)
    (l : List String) :
    (stream_classify lastData now l).1 = (stream_classify lastData now l).2 := by
  induction l with
  | nil => rfl
  | cons s rest ih =>
    simp only [stream_classify]
    cases h : lastData s with
    | none => simp [ih]
    | some t =>
      by_cases hd : stream_timeout_seconds < now - t
      · have hd' : (300 : ℚ) < now - t := by
          simpa [stream_timeout_seconds] using hd
        simp [hd, hd', ih]
      · simp [hd, ih]

/-- Helper: membership in the critical list of one monitor pass. -/
theorem stream_classify_mem (lastData : String → Option ℚ) (now : ℚ)
    (l : List String) (s : String) :
    s ∈ (stream_classify lastData now l).2 ↔
      s ∈ l ∧ (lastData s = none ∨ ∃ t, lastData s = some t ∧ (300 : ℚ) < now - t) := by
  induction l with
  | nil => simp [stream_classify]
  | cons x rest ih =>
    simp only [stream_classify]
    cases hx : lastData x with
    | none =>
      show s ∈ x :: (stream_classify lastData now rest).2 ↔ _
      rw [List.mem_cons, ih]
      constructor
      · rintro (rfl | ⟨hr, hcase⟩)
        · exact ⟨List.mem_cons_self _ _, Or.inl hx⟩
        · exact ⟨List.mem_cons_of_mem x hr, hcase⟩
      · rintro ⟨hmem, hcase⟩
        rcases List.mem_cons.mp hmem with rfl | hr
        · exact Or.inl rfl
        · exact Or.inr ⟨hr, hcase⟩
    | some t =>
      dsimp only
      by_cases hd : stream_timeout_seconds < now - t
      · have hd' : (300 : ℚ) < now - t := by
          simpa [stream_timeout_seconds] using hd
        rw [if_pos hd, if_pos hd']
        show s ∈ x :: (stream_classify lastData now rest).2 ↔ _
        rw [List.mem_cons, ih]
        constructor
        · rintro (rfl | ⟨hr, hcase⟩)
          · exact ⟨List.mem_cons_self _ _, Or.inr ⟨t, hx, hd'⟩⟩
          · exact ⟨List.mem_cons_of_mem x hr, hcase⟩
        · rintro ⟨hmem, hcase⟩
          rcases List.mem_cons.mp hmem with rfl | hr
          · exact Or.inl rfl
          · exact Or.inr ⟨hr, hcase⟩
      · have hd' : ¬(300 : ℚ) < now - t := by
          simpa [stream_timeout_seconds] using hd
        rw [if_neg hd, ih]
        constructor
        · rintro ⟨hr, hcase⟩
          exact ⟨List.mem_cons_of_mem x hr, hcase⟩
        · rintro ⟨hmem, hcase⟩
          rcases List.mem_cons.mp hmem with rfl | hr
          · rcases hcase with hnone | ⟨u, hu, hlt⟩
            · rw [hx] at hnone; cases hnone
            · rw [hx] at hu
              cases hu
              exact absurd hlt hd'
          · exact ⟨hr, hcase⟩

/-- C8 (amended): in every monitor pass the inactive and critical lists
coincide — the stale timeout and the critical cutoff are both 300 s, not
strictly ordered; a tracked symbol is critical iff it was never seen or its
last tick is strictly more than 300 s old (so one exactly 300 s old, or
299 s old, is not); and a forced reconnect happens iff the critical count
reaches `max(1, 0.3 * n)` or the inactive count strictly exceeds `0.5 * n`. -/
theorem stream_monitor_amended (trading : List String)
    (lastData : String → Option ℚ) (now : ℚ) :
    (stream_monitor_pass trading lastData now).inactivePairs =
      (stream_monitor_pass trading lastData now).criticalPairs ∧
    (∀ s, s ∈ (stream_monitor_pass trading lastData now).criticalPairs ↔
      s ∈ trading ∧
        (lastData s = none ∨ ∃ t, lastData s = some t ∧ (300 : ℚ) < now - t)) ∧
    ((stream_monitor_pass trading lastData now).forceReconnect = true ↔
      max 1 ((trading.length : ℚ) * (3 / 10)) ≤
          ((stream_monitor_pass trading lastData now).criticalPairs.length : ℚ) ∨
        (trading.length : ℚ) * (1 / 2) <
          ((stream_monitor_pass trading lastData now).inactivePairs.length : ℚ)) := by
  refine ⟨stream_classify_lists_eq lastData now trading,
    fun s => stream_classify_mem lastData now trading s, ?_⟩
  simp only [stream_monitor_pass]
  by_cases h1 : max 1 ((trading.length : ℚ) * (3 / 10)) ≤
      ((stream_classify lastData now trading).2.length : ℚ)
  · simp [h1]
  · by_cases h2 : (trading.length : ℚ) * (1 / 2) <
        ((stream_classify lastData now trading).1.length : ℚ)
    · simp [h1, h2]
    · simp [h1, h2]

/-! ## Pagination lemmas shared by C3, C4, C5 and C6 -/

/-- Existence checks distribute over table append. -/
theorem check_candle_exists_append (db ext : KlineDB) (key : Nat) :
    check_candle_exists (db ++ ext) key =
      (check_candle_exists db key || check_candle_exists ext key) :=
  List.any_append

/-- Page processing only appends rows to the table. -/
theorem processKlines_db_append (s e : Nat) (L : List BybitKline) :
    ∀ db last, ∃ ext, (processKlines s e L db last).db = db ++ ext := by
  induction L with
  | nil => exact fun db last => ⟨[], by simp [processKlines]⟩
  | cons k rest ih =>
    intro db last
    simp only [processKlines]
    by_cases hskip : k.ts < s ∨ e ≤ k.ts
    · rw [if_pos hskip]
      exact ih db last
    · rw [if_neg hskip]
      by_cases hex : check_candle_exists db (roundDownMinute k.ts) = true
      · rw [if_pos hex]
        exact ih db (max last k.ts)
      · rw [if_neg hex]
        obtain ⟨ext, hext⟩ := ih (db ++ [histCandleOf k]) (max last k.ts)
        exact ⟨histCandleOf k :: ext, by rw [hext, List.append_assoc]; rfl⟩

/-- A key present before page processing is present after it. -/
theorem processKlines_preserves_key (s e : Nat) (L : List BybitKline)
    (db : KlineDB) (last key : Nat)
    (h : check_candle_exists db key = true) :
    check_candle_exists (processKlines s e L db last).db key = true := by
  obtain ⟨ext, hext⟩ := processKlines_db_append s e L db last
  rw [hext, check_candle_exists_append, h, Bool.true_or]

/-- After processing a page, every in-range row's rounded key is present. -/
theorem processKlines_covers (s e : Nat) (L : List BybitKline) :
    ∀ db last k, k ∈ L → ¬(k.ts < s ∨ e ≤ k.ts) →
      check_candle_exists (processKlines s e L db last).db
        (roundDownMinute k.ts) = true := by
  induction L with
  | nil => intro db last k hk; cases hk
  | cons k0 rest ih =>
    intro db last k hk hin
    simp only [processKlines]
    rcases List.mem_cons.mp hk with rfl | hkr
    · rw [if_neg hin]
      by_cases hex : check_candle_exists db (roundDownMinute k.ts) = true
      · rw [if_pos hex]
        exact processKlines_preserves_key s e rest db (max last k.ts) _ hex
      · rw [if_neg hex]
        refine processKlines_preserves_key s e rest _ (max last k.ts) _ ?_
        rw [check_candle_exists_append]
        have : check_candle_exists [histCandleOf k] (roundDownMinute k.ts) = true := by
          simp [check_candle_exists, histCandleOf]
        rw [this, Bool.or_true]
    · by_cases hskip : k0.ts < s ∨ e ≤ k0.ts
      · rw [if_pos hskip]
        exact ih db last k hkr hin
      · rw [if_neg hskip]
        by_cases hex : check_candle_exists db (roundDownMinute k0.ts) = true
        · rw [if_pos hex]
          exact ih db (max last k0.ts) k hkr hin
        · rw [if_neg hex]
          exact ih (db ++ [histCandleOf k0]) (max last k0.ts) k hkr hin

/-- Page processing over a table that already holds every in-range key
changes nothing and loads nothing. -/
theorem processKlines_noop (s e : Nat) (L : List BybitKline) :
    ∀ db last,
      (∀ k ∈ L, ¬(k.ts < s ∨ e ≤ k.ts) →
        check_candle_exists db (roundDownMinute k.ts) = true) →
      (processKlines s e L db last).db = db ∧
        (processKlines s e L db last).loaded = 0 := by
  induction L with
  | nil => exact fun db last _ => ⟨rfl, rfl⟩
  | cons k rest ih =>
    intro db last hcov
    simp only [processKlines]
    by_cases hskip : k.ts < s ∨ e ≤ k.ts
    · rw [if_pos hskip]
      exact ih db last fun k' hk' => hcov k' (List.mem_cons_of_mem k hk')
    · rw [if_neg hskip]
      rw [if_pos (hcov k (List.mem_cons_self k rest) hskip)]
      obtain ⟨h1, h2⟩ := ih db (max last k.ts)
        (fun k' hk' => hcov k' (List.mem_cons_of_mem k hk'))
      exact ⟨h1, h2⟩

/-- The `last_timestamp` a page produces does not depend on the table. -/
theorem processKlines_last_irrel (s e : Nat) (L : List BybitKline) :
    ∀ db db' last, (processKlines s e L db last).last =
      (processKlines s e L db' last).last := by
  induction L with
  | nil => exact fun _ _ _ => rfl
  | cons k rest ih =>
    intro db db' last
    simp only [processKlines]
    by_cases hskip : k.ts < s ∨ e ≤ k.ts
    · rw [if_pos hskip, if_pos hskip]
      exact ih db db' last
    · rw [if_neg hskip, if_neg hskip]
      by_cases hex : check_candle_exists db (roundDownMinute k.ts) = true <;>
        by_cases hex' : check_candle_exists db' (roundDownMinute k.ts) = true
      · rw [if_pos hex, if_pos hex']
        exact ih db db' (max last k.ts)
      · rw [if_pos hex, if_neg hex']
        exact ih db (db' ++ [histCandleOf k]) (max last k.ts)
      · rw [if_neg hex, if_pos hex']
        exact ih (db ++ [histCandleOf k]) db' (max last k.ts)
      · rw [if_neg hex, if_neg hex']
        exact ih (db ++ [histCandleOf k]) (db' ++ [histCandleOf k]) (max last k.ts)

/-- The `last_timestamp` never moves backwards. -/
theorem processKlines_last_ge (s e : Nat) (L : List BybitKline) :
    ∀ db last, last ≤ (processKlines s e L db last).last := by
  induction L with
  | nil => exact fun _ _ => le_refl _
  | cons k rest ih =>
    intro db last
    simp only [processKlines]
    by_cases hskip : k.ts < s ∨ e ≤ k.ts
    · rw [if_pos hskip]
      exact ih db last
    · rw [if_neg hskip]
      by_cases hex : check_candle_exists db (roundDownMinute k.ts) = true
      · rw [if_pos hex]
        exact le_trans (le_max_left last k.ts) (ih db (max last k.ts))
      · rw [if_neg hex]
        exact le_trans (le_max_left last k.ts)
          (ih (db ++ [histCandleOf k]) (max last k.ts))

/-- Every row of the processed table was already stored or comes from an
in-range row of the page, rounded down to its minute. -/
theorem processKlines_mem (s e : Nat) (L : List BybitKline) :
    ∀ db last c, c ∈ (processKlines s e L db last).db →
      c ∈ db ∨ ∃ k, k ∈ L ∧ ¬(k.ts < s ∨ e ≤ k.ts) ∧ c = histCandleOf k := by
  induction L with
  | nil => exact fun db last c hc => Or.inl hc
  | cons k rest ih =>
    intro db last c
    simp only [processKlines]
    by_cases hskip : k.ts < s ∨ e ≤ k.ts
    · rw [if_pos hskip]
      intro hc
      rcases ih db last c hc with h | ⟨k', hk', hin', hc'⟩
      · exact Or.inl h
      · exact Or.inr ⟨k', List.mem_cons_of_mem k hk', hin', hc'⟩
    · rw [if_neg hskip]
      by_cases hex : check_candle_exists db (roundDownMinute k.ts) = true
      · rw [if_pos hex]
        intro hc
        rcases ih db (max last k.ts) c hc with h | ⟨k', hk', hin', hc'⟩
        · exact Or.inl h
        · exact Or.inr ⟨k', List.mem_cons_of_mem k hk', hin', hc'⟩
      · rw [if_neg hex]
        intro hc
        rcases ih (db ++ [histCandleOf k]) (max last k.ts) c hc with h | ⟨k', hk', hin', hc'⟩
        · rcases List.mem_append.mp h with h' | h'
          · exact Or.inl h'
          · exact Or.inr ⟨k, List.mem_cons_self k rest, hskip,
              (List.mem_singleton.mp h')⟩
        · exact Or.inr ⟨k', List.mem_cons_of_mem k hk', hin', hc'⟩

/-- The pagination loop only appends rows to the table. -/
theorem loadLoop_db_append (fetch : Nat → Nat → KlineResponse) (s e : Nat) :
    ∀ fuel cur db, ∃ ext, (loadLoop fetch s e fuel cur db).db = db ++ ext := by
  intro fuel
  induction fuel with
  | zero => exact fun cur db => ⟨[], by simp [loadLoop]⟩
  | succ fuel ih =>
    intro cur db
    simp only [loadLoop]
    by_cases hcur : cur < e
    · rw [if_pos hcur]
      by_cases hlim : pageLimit e cur = 0
      · rw [if_pos hlim]
        exact ⟨[], by simp⟩
      · rw [if_neg hlim]
        by_cases hst : (fetch cur (pageLimit e cur)).status ≠ 200
        · rw [if_pos hst]
          exact ⟨[], by simp⟩
        · rw [if_neg hst]
          by_cases hrc : (fetch cur (pageLimit e cur)).retCode = 0
          · rw [if_pos hrc]
            by_cases hemp :
                (fetch cur (pageLimit e cur)).rows.isEmpty = true
            · rw [if_pos hemp]
              exact ⟨[], by simp⟩
            · rw [if_neg hemp]
              obtain ⟨ext1, hext1⟩ := processKlines_db_append s e
                (fetch cur (pageLimit e cur)).rows.reverse db cur
              by_cases hshort :
                  (fetch cur (pageLimit e cur)).rows.length <
                    pageLimit e cur
              · rw [if_pos hshort]
                exact ⟨ext1, hext1⟩
              · rw [if_neg hshort]
                obtain ⟨ext2, hext2⟩ := ih
                  ((processKlines s e
                    (fetch cur (pageLimit e cur)).rows.reverse
                    db cur).last + 60000)
                  (processKlines s e
                    (fetch cur (pageLimit e cur)).rows.reverse
                    db cur).db
                refine ⟨ext1 ++ ext2, ?_⟩
                dsimp only
                rw [hext2, hext1, List.append_assoc]
          · rw [if_neg hrc]
            exact ⟨[], by simp⟩
    · rw [if_neg hcur]
      exact ⟨[], by simp⟩

/-- A key present before the pagination loop is present after it. -/
theorem loadLoop_preserves_key (fetch : Nat → Nat → KlineResponse) (s e : Nat)
    (fuel cur : Nat) (db : KlineDB) (key : Nat)
    (h : check_candle_exists db key = true) :
    check_candle_exists (loadLoop fetch s e fuel cur db).db key = true := by
  obtain ⟨ext, hext⟩ := loadLoop_db_append fetch s e fuel cur db
  rw [hext, check_candle_exists_append, h, Bool.true_or]

/-- The request limit is never 0 (it is at least 10), so the dead
`if limit <= 0: break` branch is never taken. -/
theorem pageLimit_ne_zero (e cur : Nat) : ¬pageLimit e cur = 0 := by
  rw [pageLimit, Nat.min_eq_zero_iff]
  omega

/-- Unfolding: the loop with the cursor at or past `end_ms` returns at
once. -/
theorem loadLoop_step_done (fetch : Nat → Nat → KlineResponse) (s e : Nat)
    (fuel cur : Nat) (db : KlineDB) (hcur : ¬cur < e) :
    loadLoop fetch s e fuel cur db = ⟨db, 0, 0, true, []⟩ := by
  cases fuel with
  | zero => rfl
  | succ fuel => simp only [loadLoop]; rw [if_neg hcur]

/-- Unfolding: a non-200 HTTP status returns `False` at once. -/
theorem loadLoop_step_http (fetch : Nat → Nat → KlineResponse) (s e : Nat)
    (fuel cur : Nat) (db : KlineDB) (hcur : cur < e)
    (hst : (fetch cur (pageLimit e cur)).status ≠ 200) :
    loadLoop fetch s e (fuel + 1) cur db =
      ⟨db, 0, 0, false, [fetch cur (pageLimit e cur)]⟩ := by
  simp only [loadLoop]
  rw [if_pos hcur, if_neg (pageLimit_ne_zero e cur), if_pos hst]

/-- Unfolding: a non-success API return code returns `False` at once. -/
theorem loadLoop_step_api (fetch : Nat → Nat → KlineResponse) (s e : Nat)
    (fuel cur : Nat) (db : KlineDB) (hcur : cur < e)
    (hst : ¬(fetch cur (pageLimit e cur)).status ≠ 200)
    (hrc : ¬(fetch cur (pageLimit e cur)).retCode = 0) :
    loadLoop fetch s e (fuel + 1) cur db =
      ⟨db, 0, 0, false, [fetch cur (pageLimit e cur)]⟩ := by
  simp only [loadLoop]
  rw [if_pos hcur, if_neg (pageLimit_ne_zero e cur), if_neg hst, if_neg hrc]

/-- Unfolding: an empty page breaks the loop. -/
theorem loadLoop_step_empty (fetch : Nat → Nat → KlineResponse) (s e : Nat)
    (fuel cur : Nat) (db : KlineDB) (hcur : cur < e)
    (hst : ¬(fetch cur (pageLimit e cur)).status ≠ 200)
    (hrc : (fetch cur (pageLimit e cur)).retCode = 0)
    (hemp : (fetch cur (pageLimit e cur)).rows.isEmpty = true) :
    loadLoop fetch s e (fuel + 1) cur db =
      ⟨db, 0, 0, true, [fetch cur (pageLimit e cur)]⟩ := by
  simp only [loadLoop]
  rw [if_pos hcur, if_neg (pageLimit_ne_zero e cur), if_neg hst, if_pos hrc,
    if_pos hemp]

/-- Unfolding: a short page is processed and then breaks the loop. -/
theorem loadLoop_step_short (fetch : Nat → Nat → KlineResponse) (s e : Nat)
    (fuel cur : Nat) (db : KlineDB) (hcur : cur < e)
    (hst : ¬(fetch cur (pageLimit e cur)).status ≠ 200)
    (hrc : (fetch cur (pageLimit e cur)).retCode = 0)
    (hemp : ¬(fetch cur (pageLimit e cur)).rows.isEmpty = true)
    (hshort : (fetch cur (pageLimit e cur)).rows.length < pageLimit e cur) :
    loadLoop fetch s e (fuel + 1) cur db =
      ⟨(processKlines s e (fetch cur (pageLimit e cur)).rows.reverse db cur).db,
        (processKlines s e (fetch cur (pageLimit e cur)).rows.reverse db cur).loaded,
        (processKlines s e (fetch cur (pageLimit e cur)).rows.reverse db cur).skipped,
        true, [fetch cur (pageLimit e cur)]⟩ := by
  simp only [loadLoop]
  rw [if_pos hcur, if_neg (pageLimit_ne_zero e cur), if_neg hst, if_pos hrc,
    if_neg hemp, if_pos hshort]

/-- Unfolding: a full page is processed, the cursor advances to
`last_timestamp + 60000`, and the loop continues. -/
theorem loadLoop_step_full (fetch : Nat → Nat → KlineResponse) (s e : Nat)
    (fuel cur : Nat) (db : KlineDB) (hcur : cur < e)
    (hst : ¬(fetch cur (pageLimit e cur)).status ≠ 200)
    (hrc : (fetch cur (pageLimit e cur)).retCode = 0)
    (hemp : ¬(fetch cur (pageLimit e cur)).rows.isEmpty = true)
    (hshort : ¬(fetch cur (pageLimit e cur)).rows.length < pageLimit e cur) :
    loadLoop fetch s e (fuel + 1) cur db =
      ⟨(loadLoop fetch s e fuel
          ((processKlines s e (fetch cur (pageLimit e cur)).rows.reverse db cur).last
            + 60000)
          (processKlines s e (fetch cur (pageLimit e cur)).rows.reverse db cur).db).db,
        (processKlines s e (fetch cur (pageLimit e cur)).rows.reverse db cur).loaded +
          (loadLoop fetch s e fuel
            ((processKlines s e (fetch cur (pageLimit e cur)).rows.reverse db cur).last
              + 60000)
            (processKlines s e (fetch cur (pageLimit e cur)).rows.reverse db
              cur).db).loaded,
        (processKlines s e (fetch cur (pageLimit e cur)).rows.reverse db cur).skipped +
          (loadLoop fetch s e fuel
            ((processKlines s e (fetch cur (pageLimit e cur)).rows.reverse db cur).last
              + 60000)
            (processKlines s e (fetch cur (pageLimit e cur)).rows.reverse db
              cur).db).skipped,
        (loadLoop fetch s e fuel
          ((processKlines s e (fetch cur (pageLimit e cur)).rows.reverse db cur).last
            + 60000)
          (processKlines s e (fetch cur (pageLimit e cur)).rows.reverse db cur).db).ok,
        fetch cur (pageLimit e cur) ::
          (loadLoop fetch s e fuel
            ((processKlines s e (fetch cur (pageLimit e cur)).rows.reverse db cur).last
              + 60000)
            (processKlines s e (fetch cur (pageLimit e cur)).rows.reverse db
              cur).db).reqs⟩ := by
  simp only [loadLoop]
  rw [if_pos hcur, if_neg (pageLimit_ne_zero e cur), if_neg hst, if_pos hrc,
    if_neg hemp, if_neg hshort]

/-- Rounding down to the minute never increases a timestamp. -/
theorem roundDownMinute_le (t : Nat) : roundDownMinute t ≤ t :=
  Nat.div_mul_le_self t 60000

/-- A minute-aligned lower bound survives rounding down to the minute. -/
theorem le_roundDownMinute_of_aligned {s t : Nat} (hs : s % 60000 = 0)
    (h : s ≤ t) : s ≤ roundDownMinute t := by
  obtain ⟨q, hq⟩ := Nat.dvd_of_mod_eq_zero hs
  subst hq
  rw [roundDownMinute]
  have hq' : q ≤ t / 60000 := by
    rw [Nat.le_div_iff_mul_le (by norm_num)]
    omega
  calc 60000 * q = q * 60000 := Nat.mul_comm _ _
    _ ≤ t / 60000 * 60000 := Nat.mul_le_mul_right _ hq'

/-- A candle written for an in-range row lies in the half-open window, as
long as the window start is minute-aligned. -/
theorem histCandle_window {s e : Nat} (hs : s % 60000 = 0) (k : BybitKline)
    (hin : ¬(k.ts < s ∨ e ≤ k.ts)) :
    s ≤ (histCandleOf k).timestampMs ∧ (histCandleOf k).timestampMs < e := by
  push_neg at hin
  exact ⟨le_roundDownMinute_of_aligned hs hin.1,
    lt_of_le_of_lt (roundDownMinute_le k.ts) hin.2⟩

/-- For a minute-aligned window start, every row the pagination loop adds to
the table has its timestamp inside `[start_ms, end_ms)`. -/
theorem loadLoop_mem (fetch : Nat → Nat → KlineResponse) (s e : Nat)
    (hs : s % 60000 = 0) :
    ∀ fuel cur db c, c ∈ (loadLoop fetch s e fuel cur db).db →
      c ∈ db ∨ (s ≤ c.timestampMs ∧ c.timestampMs < e) := by
  intro fuel
  induction fuel with
  | zero => exact fun cur db c hc => Or.inl hc
  | succ fuel ih =>
    intro cur db c
    by_cases hcur : cur < e
    · by_cases hst : (fetch cur (pageLimit e cur)).status ≠ 200
      · rw [loadLoop_step_http fetch s e fuel cur db hcur hst]
        exact Or.inl
      · by_cases hrc : (fetch cur (pageLimit e cur)).retCode = 0
        · by_cases hemp : (fetch cur (pageLimit e cur)).rows.isEmpty = true
          · rw [loadLoop_step_empty fetch s e fuel cur db hcur hst hrc hemp]
            exact Or.inl
          · by_cases hshort :
                (fetch cur (pageLimit e cur)).rows.length < pageLimit e cur
            · rw [loadLoop_step_short fetch s e fuel cur db hcur hst hrc hemp hshort]
              intro hc
              rcases processKlines_mem s e
                  (fetch cur (pageLimit e cur)).rows.reverse db cur c hc with
                h | ⟨k, _, hin, rfl⟩
              · exact Or.inl h
              · exact Or.inr (histCandle_window hs k hin)
            · rw [loadLoop_step_full fetch s e fuel cur db hcur hst hrc hemp hshort]
              intro hc
              rcases ih _ _ c hc with h | hwin
              · rcases processKlines_mem s e
                    (fetch cur (pageLimit e cur)).rows.reverse db cur c h with
                  h' | ⟨k, _, hin, rfl⟩
                · exact Or.inl h'
                · exact Or.inr (histCandle_window hs k hin)
              · exact Or.inr hwin
        · rw [loadLoop_step_api fetch s e fuel cur db hcur hst hrc]
          exact Or.inl
    · rw [loadLoop_step_done fetch s e (fuel + 1) cur db hcur]
      exact Or.inl

/-- The returned boolean of the pagination loop is `False` exactly when one
of the page requests it made got an error response. -/
theorem loadLoop_ok_eq (fetch : Nat → Nat → KlineResponse) (s e : Nat) :
    ∀ fuel cur db, (loadLoop fetch s e fuel cur db).ok =
      !((loadLoop fetch s e fuel cur db).reqs.any isErrorResponse) := by
  intro fuel
  induction fuel with
  | zero => exact fun cur db => rfl
  | succ fuel ih =>
    intro cur db
    by_cases hcur : cur < e
    · by_cases hst : (fetch cur (pageLimit e cur)).status ≠ 200
      · rw [loadLoop_step_http fetch s e fuel cur db hcur hst]
        simp [isErrorResponse, hst]
      · by_cases hrc : (fetch cur (pageLimit e cur)).retCode = 0
        · by_cases hemp : (fetch cur (pageLimit e cur)).rows.isEmpty = true
          · rw [loadLoop_step_empty fetch s e fuel cur db hcur hst hrc hemp]
            simp [isErrorResponse, hst, hrc]
          · by_cases hshort :
                (fetch cur (pageLimit e cur)).rows.length < pageLimit e cur
            · rw [loadLoop_step_short fetch s e fuel cur db hcur hst hrc hemp hshort]
              simp [isErrorResponse, hst, hrc]
            · rw [loadLoop_step_full fetch s e fuel cur db hcur hst hrc hemp hshort]
              simp only [List.any_cons, isErrorResponse]
              rw [ih]
              simp [hst, hrc]
        · rw [loadLoop_step_api fetch s e fuel cur db hcur hst hrc]
          simp [isErrorResponse, hrc]
    · rw [loadLoop_step_done fetch s e (fuel + 1) cur db hcur]
      rfl

/-- Running the pagination loop a second time over its own output table
leaves the table unchanged, writes zero rows, and returns the same
boolean. -/
theorem loadLoop_idem (fetch : Nat → Nat → KlineResponse) (s e : Nat) :
    ∀ fuel cur db,
      (loadLoop fetch s e fuel cur (loadLoop fetch s e fuel cur db).db).db =
          (loadLoop fetch s e fuel cur db).db ∧
        (loadLoop fetch s e fuel cur (loadLoop fetch s e fuel cur db).db).loaded = 0 ∧
        (loadLoop fetch s e fuel cur (loadLoop fetch s e fuel cur db).db).ok =
          (loadLoop fetch s e fuel cur db).ok := by
  intro fuel
  induction fuel with
  | zero => exact fun cur db => ⟨rfl, rfl, rfl⟩
  | succ fuel ih =>
    intro cur db
    by_cases hcur : cur < e
    · by_cases hst : (fetch cur (pageLimit e cur)).status ≠ 200
      · rw [loadLoop_step_http fetch s e fuel cur db hcur hst]
        rw [loadLoop_step_http fetch s e fuel cur db hcur hst]
        exact ⟨rfl, rfl, rfl⟩
      · by_cases hrc : (fetch cur (pageLimit e cur)).retCode = 0
        · by_cases hemp : (fetch cur (pageLimit e cur)).rows.isEmpty = true
          · rw [loadLoop_step_empty fetch s e fuel cur db hcur hst hrc hemp]
            rw [loadLoop_step_empty fetch s e fuel cur db hcur hst hrc hemp]
            exact ⟨rfl, rfl, rfl⟩
          · by_cases hshort :
                (fetch cur (pageLimit e cur)).rows.length < pageLimit e cur
            · rw [loadLoop_step_short fetch s e fuel cur db hcur hst hrc hemp hshort]
              have hcov : ∀ k ∈ (fetch cur (pageLimit e cur)).rows.reverse,
                  ¬(k.ts < s ∨ e ≤ k.ts) →
                  check_candle_exists
                    (processKlines s e (fetch cur (pageLimit e cur)).rows.reverse
                      db cur).db (roundDownMinute k.ts) = true :=
                fun k hk hin => processKlines_covers s e _ db cur k hk hin
              obtain ⟨hdb, hld⟩ := processKlines_noop s e
                (fetch cur (pageLimit e cur)).rows.reverse
                (processKlines s e (fetch cur (pageLimit e cur)).rows.reverse
                  db cur).db cur hcov
              rw [loadLoop_step_short fetch s e fuel cur _ hcur hst hrc hemp hshort]
              exact ⟨hdb, hld, rfl⟩
            · rw [loadLoop_step_full fetch s e fuel cur db hcur hst hrc hemp hshort]
              rw [loadLoop_step_full fetch s e fuel cur _ hcur hst hrc hemp hshort]
              have hcov : ∀ k ∈ (fetch cur (pageLimit e cur)).rows.reverse,
                  ¬(k.ts < s ∨ e ≤ k.ts) →
                  check_candle_exists
                    (loadLoop fetch s e fuel
                      ((processKlines s e (fetch cur (pageLimit e cur)).rows.reverse
                        db cur).last + 60000)
                      (processKlines s e (fetch cur (pageLimit e cur)).rows.reverse
                        db cur).db).db (roundDownMinute k.ts) = true :=
                fun k hk hin =>
                  loadLoop_preserves_key fetch s e fuel _ _ _
                    (processKlines_covers s e _ db cur k hk hin)
              obtain ⟨hdb2, hld2⟩ := processKlines_noop s e
                (fetch cur (pageLimit e cur)).rows.reverse
                (loadLoop fetch s e fuel
                  ((processKlines s e (fetch cur (pageLimit e cur)).rows.reverse
                    db cur).last + 60000)
                  (processKlines s e (fetch cur (pageLimit e cur)).rows.reverse
                    db cur).db).db cur hcov
              have hlast : (processKlines s e
                  (fetch cur (pageLimit e cur)).rows.reverse
                  (loadLoop fetch s e fuel
                    ((processKlines s e (fetch cur (pageLimit e cur)).rows.reverse
                      db cur).last + 60000)
                    (processKlines s e (fetch cur (pageLimit e cur)).rows.reverse
                      db cur).db).db cur).last =
                  (processKlines s e (fetch cur (pageLimit e cur)).rows.reverse
                    db cur).last :=
                processKlines_last_irrel s e _ _ _ cur
              rw [hdb2, hld2, hlast]
              obtain ⟨hv1, hv2, hv3⟩ := ih
                ((processKlines s e (fetch cur (pageLimit e cur)).rows.reverse
                  db cur).last + 60000)
                (processKlines s e (fetch cur (pageLimit e cur)).rows.reverse
                  db cur).db
              rw [hv1, hv2, hv3]
              exact ⟨rfl, rfl, rfl⟩
        · rw [loadLoop_step_api fetch s e fuel cur db hcur hst hrc]
          rw [loadLoop_step_api fetch s e fuel cur db hcur hst hrc]
          exact ⟨rfl, rfl, rfl⟩
    · rw [loadLoop_step_done fetch s e (fuel + 1) cur db hcur]
      rw [loadLoop_step_done fetch s e (fuel + 1) cur db hcur]
      exact ⟨rfl, rfl, rfl⟩

/-- Any two sufficient fuel values give the same loop result: the cursor
advances by at least 60000 ms per iteration, so `e - cur` bounds the
iteration count and the fuel `loadFullPeriod` passes never runs out. -/
theorem loadLoop_fuel_irrel (fetch : Nat → Nat → KlineResponse) (s e : Nat) :
    ∀ f g cur db, e - cur < f → e - cur < g →
      loadLoop fetch s e f cur db = loadLoop fetch s e g cur db := by
  intro f
  induction f with
  | zero => intro g cur db hf _; omega
  | succ f ih =>
    intro g cur db hf hg
    cases g with
    | zero => omega
    | succ g =>
      by_cases hcur : cur < e
      · by_cases hst : (fetch cur (pageLimit e cur)).status ≠ 200
        · rw [loadLoop_step_http fetch s e f cur db hcur hst,
            loadLoop_step_http fetch s e g cur db hcur hst]
        · by_cases hrc : (fetch cur (pageLimit e cur)).retCode = 0
          · by_cases hemp : (fetch cur (pageLimit e cur)).rows.isEmpty = true
            · rw [loadLoop_step_empty fetch s e f cur db hcur hst hrc hemp,
                loadLoop_step_empty fetch s e g cur db hcur hst hrc hemp]
            · by_cases hshort :
                  (fetch cur (pageLimit e cur)).rows.length < pageLimit e cur
              · rw [loadLoop_step_short fetch s e f cur db hcur hst hrc hemp hshort,
                  loadLoop_step_short fetch s e g cur db hcur hst hrc hemp hshort]
              · rw [loadLoop_step_full fetch s e f cur db hcur hst hrc hemp hshort,
                  loadLoop_step_full fetch s e g cur db hcur hst hrc hemp hshort]
                have hge : cur ≤ (processKlines s e
                    (fetch cur (pageLimit e cur)).rows.reverse db cur).last :=
                  processKlines_last_ge s e _ db cur
                rw [ih g
                  ((processKlines s e (fetch cur (pageLimit e cur)).rows.reverse
                    db cur).last + 60000)
                  (processKlines s e (fetch cur (pageLimit e cur)).rows.reverse
                    db cur).db (by omega) (by omega)]
          · rw [loadLoop_step_api fetch s e f cur db hcur hst hrc,
              loadLoop_step_api fetch s e g cur db hcur hst hrc]
      · rw [loadLoop_step_done fetch s e (f + 1) cur db hcur,
          loadLoop_step_done fetch s e (g + 1) cur db hcur]

/-! ## C3: backfill idempotence -/

/-- C3: running `_load_full_period` twice in sequence over the same range
against an unchanged exchange leaves exactly the stored rows of the first
run — the second run writes zero new rows (every row is guarded by the
`check_candle_exists` lookup on the `(symbol, start_ms)` key) — and returns
the same boolean. -/
theorem backfill_idempotent (fetch : Nat → Nat → KlineResponse)
    (startMs endMs : Nat) (db : KlineDB) :
    (loadFullPeriod fetch startMs endMs
        (loadFullPeriod fetch startMs endMs db).db).db =
        (loadFullPeriod fetch startMs endMs db).db ∧
      (loadFullPeriod fetch startMs endMs
        (loadFullPeriod fetch startMs endMs db).db).loaded = 0 ∧
      (loadFullPeriod fetch startMs endMs
        (loadFullPeriod fetch startMs endMs db).db).ok =
        (loadFullPeriod fetch startMs endMs db).ok :=
  loadLoop_idem fetch startMs endMs (endMs - startMs + 1) startMs db

/-! ## C5: backfill return value -/

/-- C5: `_load_full_period` returns `False` exactly when one of the page
requests it made got a non-200 HTTP status or a non-success API return code,
and `True` in every other case — in particular a range with zero rows
returns `True`. -/
theorem backfill_ok_iff_no_error (fetch : Nat → Nat → KlineResponse)
    (startMs endMs : Nat) (db : KlineDB) :
    (loadFullPeriod fetch startMs endMs db).ok =
        !((loadFullPeriod fetch startMs endMs db).reqs.any isErrorResponse) ∧
      (loadFullPeriod emptyFetch 0 600000 []).ok = true :=
  ⟨loadLoop_ok_eq fetch startMs endMs (endMs - startMs + 1) startMs db,
    by decide⟩

/-! ## C4: window maintenance bound -/

/-- The retention-window start is minute-aligned. -/
theorem window_start_ms_aligned (retentionHours analysisHours nowMs : Nat) :
    window_start_ms retentionHours analysisHours nowMs % 60000 = 0 := by
  have hdvd : 60000 ∣ window_start_ms retentionHours analysisHours nowMs :=
    Nat.dvd_sub' ⟨nowMs / 60000, Nat.mul_comm _ _⟩
      ⟨(retentionHours + analysisHours) * 60, by ring⟩
  exact Nat.dvd_iff_mod_eq_zero.mp hdvd

/-- The two deletes of `_maintain_exact_data_range` leave only rows inside
`[before, after)`. -/
theorem mem_cleanup_bounds (db : KlineDB) (beforeMs afterMs : Nat)
    (c : StoredCandle)
    (hc : c ∈ cleanup_future_candles_after_time
      (cleanup_old_candles_before_time db beforeMs) afterMs) :
    beforeMs ≤ c.timestampMs ∧ c.timestampMs < afterMs := by
  obtain ⟨h2, hlt⟩ := List.mem_filter.mp hc
  obtain ⟨_, hge⟩ := List.mem_filter.mp h2
  exact ⟨of_decide_eq_true hge, of_decide_eq_true hlt⟩

/-- C4: after one `_maintain_exact_data_range` pass for a symbol, every
stored candle has `start_ms` inside the half-open retention window
`[window.start, window.end)` — old and future rows are deleted, and any
backfill the pass triggers writes only timestamps inside that window. -/
theorem maintain_range_window_bound (fetch : Nat → Nat → KlineResponse)
    (retentionHours analysisHours nowMs : Nat) (db : KlineDB)
    (c : StoredCandle)
    (hc : c ∈ maintain_exact_data_range fetch retentionHours analysisHours
      nowMs db) :
    window_start_ms retentionHours analysisHours nowMs ≤ c.timestampMs ∧
      c.timestampMs < window_end_ms nowMs := by
  simp only [maintain_exact_data_range] at hc
  by_cases hmiss : 10 < (check_data_integrity_range
      (cleanup_future_candles_after_time
        (cleanup_old_candles_before_time db
          (window_start_ms retentionHours analysisHours nowMs))
        (window_end_ms nowMs))
      (window_start_ms retentionHours analysisHours nowMs)
      (window_end_ms nowMs)).2.2
  · rw [if_pos hmiss] at hc
    rcases loadLoop_mem fetch
        (window_start_ms retentionHours analysisHours nowMs)
        (window_end_ms nowMs)
        (window_start_ms_aligned retentionHours analysisHours nowMs)
        _ _ _ c hc with h | hwin
    · exact mem_cleanup_bounds db _ _ c h
    · exact hwin
  · rw [if_neg hmiss] at hc
    exact mem_cleanup_bounds db _ _ c hc

/-- Witness for C4: a concrete pass (window `[3600000, 14400000)`, a stored
candle at the window start, an exchange with no historical data) keeps the
candle, whose timestamp the theorem places inside the window. -/
theorem maintain_range_window_bound_witness :
    window_start_ms 2 1 14400000 ≤ wCandle.timestampMs ∧
      wCandle.timestampMs < window_end_ms 14400000 :=
  maintain_range_window_bound emptyFetch 2 1 14400000 [wCandle] wCandle
    (by decide)

/-! ## C6: pagination law -/

/-- A row is skipped by the loop body exactly when it is outside the
half-open window. -/
theorem inWindowRow_eq_true {s e : Nat} (k : BybitKline) :
    inWindowRow s e k = true ↔ ¬(k.ts < s ∨ e ≤ k.ts) := by
  simp only [inWindowRow, Bool.and_eq_true, decide_eq_true_eq]
  omega

/-- The write-step fold counts loads and skips additively. -/
theorem specFold_shift (L : List BybitKline) :
    ∀ db a b, L.foldl specWriteStep (db, a, b) =
      ((L.foldl specWriteStep (db, 0, 0)).1,
        a + (L.foldl specWriteStep (db, 0, 0)).2.1,
        b + (L.foldl specWriteStep (db, 0, 0)).2.2) := by
  induction L with
  | nil => simp
  | cons k rest ih =>
    intro db a b
    simp only [List.foldl_cons, specWriteStep]
    by_cases hex : check_candle_exists db (roundDownMinute k.ts) = true
    · rw [if_pos hex, if_pos hex, ih db a (b + 1), ih db 0 1]
      simp [Prod.ext_iff]; omega
    · rw [if_neg hex, if_neg hex, ih (db ++ [histCandleOf k]) (a + 1) b,
        ih (db ++ [histCandleOf k]) 1 0]
      simp [Prod.ext_iff]; omega

/-- The per-row loop of `_load_full_period` equals the compositional
description of the amended claim: filter the in-range rows, fold the
check-then-write step over them, and take the max of the current cursor and
the in-range raw timestamps. -/
theorem processKlines_spec (s e : Nat) (L : List BybitKline) :
    ∀ db last, processKlines s e L db last =
      ⟨((L.filter (inWindowRow s e)).foldl specWriteStep (db, 0, 0)).1,
        ((L.filter (inWindowRow s e)).foldl specWriteStep (db, 0, 0)).2.1,
        ((L.filter (inWindowRow s e)).foldl specWriteStep (db, 0, 0)).2.2,
        ((L.filter (inWindowRow s e)).map BybitKline.ts).foldl max last⟩ := by
  induction L with
  | nil => intro db last; simp [processKlines]
  | cons k rest ih =>
    intro db last
    simp only [processKlines, List.filter_cons]
    by_cases hskip : k.ts < s ∨ e ≤ k.ts
    · have hw : ¬inWindowRow s e k = true := fun h =>
        (inWindowRow_eq_true k).mp h hskip
      rw [if_pos hskip]
      simp only [hw, Bool.false_eq_true, if_false]
      exact ih db last
    · have hw : inWindowRow s e k = true := (inWindowRow_eq_true k).mpr hskip
      rw [if_neg hskip]
      simp only [hw, if_true, List.foldl_cons, List.map_cons, specWriteStep]
      by_cases hex : check_candle_exists db (roundDownMinute k.ts) = true
      · rw [if_pos hex, if_pos hex, ih db (max last k.ts),
          specFold_shift (rest.filter (inWindowRow s e)) db 0 1]
        simp [PageResult.mk.injEq, Prod.ext_iff]; omega
      · rw [if_neg hex, if_neg hex, ih (db ++ [histCandleOf k]) (max last k.ts),
          specFold_shift (rest.filter (inWindowRow s e)) (db ++ [histCandleOf k]) 1 0]
        simp [PageResult.mk.injEq, Prod.ext_iff]; omega

/-- The table a page leaves behind, as the spec writes it. -/
theorem processKlines_spec_db (s e : Nat) (page : List BybitKline)
    (db : KlineDB) (cur : Nat) :
    (processKlines s e page.reverse db cur).db =
      (specProcessPage s e page db).1 := by
  rw [processKlines_spec]
  rfl

/-- The loaded counter of a page, as the spec writes it. -/
theorem processKlines_spec_loaded (s e : Nat) (page : List BybitKline)
    (db : KlineDB) (cur : Nat) :
    (processKlines s e page.reverse db cur).loaded =
      (specProcessPage s e page db).2.1 := by
  rw [processKlines_spec]
  rfl

/-- The skipped counter of a page, as the spec writes it. -/
theorem processKlines_spec_skipped (s e : Nat) (page : List BybitKline)
    (db : KlineDB) (cur : Nat) :
    (processKlines s e page.reverse db cur).skipped =
      (specProcessPage s e page db).2.2 := by
  rw [processKlines_spec]
  rfl

/-- The next cursor, as the amended claim words it. -/
theorem processKlines_spec_cursor (s e : Nat) (page : List BybitKline)
    (db : KlineDB) (cur : Nat) :
    (processKlines s e page.reverse db cur).last + 60000 =
      specNextCursor s e cur page := by
  rw [processKlines_spec]
  rfl

/-- The faithful embedding of the `_load_full_period` loop coincides with
the loop assembled from the spec-worded pieces. -/
theorem loadLoop_eq_spec (fetch : Nat → Nat → KlineResponse) (s e : Nat) :
    ∀ fuel cur db, loadLoop fetch s e fuel cur db =
      loadLoopSpec fetch s e fuel cur db := by
  intro fuel
  induction fuel with
  | zero => exact fun cur db => rfl
  | succ fuel ih =>
    intro cur db
    by_cases hcur : cur < e
    · by_cases hst : (fetch cur (pageLimit e cur)).status ≠ 200
      · rw [loadLoop_step_http fetch s e fuel cur db hcur hst]
        simp only [loadLoopSpec]
        rw [if_pos hcur, if_neg (pageLimit_ne_zero e cur), if_pos hst]
      · by_cases hrc : (fetch cur (pageLimit e cur)).retCode = 0
        · by_cases hemp : (fetch cur (pageLimit e cur)).rows.isEmpty = true
          · rw [loadLoop_step_empty fetch s e fuel cur db hcur hst hrc hemp]
            simp only [loadLoopSpec]
            rw [if_pos hcur, if_neg (pageLimit_ne_zero e cur), if_neg hst,
              if_pos hrc, if_pos hemp]
          · by_cases hshort :
                (fetch cur (pageLimit e cur)).rows.length < pageLimit e cur
            · rw [loadLoop_step_short fetch s e fuel cur db hcur hst hrc hemp hshort]
              simp only [loadLoopSpec]
              rw [if_pos hcur, if_neg (pageLimit_ne_zero e cur), if_neg hst,
                if_pos hrc, if_neg hemp, if_pos hshort]
              rw [processKlines_spec_db, processKlines_spec_loaded,
                processKlines_spec_skipped]
            · rw [loadLoop_step_full fetch s e fuel cur db hcur hst hrc hemp hshort]
              simp only [loadLoopSpec]
              rw [if_pos hcur, if_neg (pageLimit_ne_zero e cur), if_neg hst,
                if_pos hrc, if_neg hemp, if_neg hshort]
              rw [← processKlines_spec_db s e (fetch cur (pageLimit e cur)).rows db
                  cur,
                ← processKlines_spec_loaded s e (fetch cur (pageLimit e cur)).rows db
                  cur,
                ← processKlines_spec_skipped s e (fetch cur (pageLimit e cur)).rows db
                  cur,
                ← processKlines_spec_cursor s e (fetch cur (pageLimit e cur)).rows db
                  cur,
                ih]
        · rw [loadLoop_step_api fetch s e fuel cur db hcur hst hrc]
          simp only [loadLoopSpec]
          rw [if_pos hcur, if_neg (pageLimit_ne_zero e cur), if_neg hst, if_neg hrc]
    · rw [loadLoop_step_done fetch s e (fuel + 1) cur db hcur]
      simp only [loadLoopSpec]
      rw [if_neg hcur]

/-- Counterexample to C6 as stated: for a realistic exchange answer — the
first page is full (20 rows) and contains one row at exactly
`end_ms = 600000`, which the inclusive REST `end` bound allows — the maximum
observed row timestamp plus 60000 is already at or past `end_ms`, so under
the claim's cursor rule ("advance to the maximum observed row timestamp plus
60000" and "terminate when the cursor reaches or passes `end_ms`") the loop
would stop after one request; the code's loop makes a second request,
because a skipped out-of-range row does not advance `last_timestamp`. -/
theorem backfill_cursor_claim_cex :
    (exFetch 0 (pageLimit 600000 0)).rows.length = pageLimit 600000 0 ∧
      600000 ≤ pageMaxTs (exFetch 0 (pageLimit 600000 0)).rows + 60000 ∧
      (loadFullPeriod exFetch 0 600000 []).reqs.length = 2 := by
  exact ⟨by decide, by decide, by decide⟩

/-- C6 (amended): the pagination loop reverses each page to chronological
order, decides skipping on the raw timestamp against `[start_ms, end_ms)`,
writes the surviving rows under their minute-rounded key only when absent,
advances the cursor to `max(cursor, max in-range raw timestamp) + 60000`
(rows outside the range do not advance it), and terminates on an error
response, an empty page, a short page, or a cursor at or past `end_ms` —
the faithful loop equals the loop assembled from these spec-worded
pieces. -/
theorem backfill_pagination_amended (fetch : Nat → Nat → KlineResponse)
    (startMs endMs fuel cur : Nat) (db : KlineDB) :
    loadLoop fetch startMs endMs fuel cur db =
      loadLoopSpec fetch startMs endMs fuel cur db :=
  loadLoop_eq_spec fetch startMs endMs fuel cur db

/-! ## C2: subscription-set disjointness -/

/-- Batch subscription touches only `pending` and `failed`. -/
theorem subGo_frame (sendOk : Nat → Bool) :
    ∀ bs i σ, (subGo sendOk bs i σ).trading = σ.trading ∧
      (subGo sendOk bs i σ).subscribed = σ.subscribed ∧
      (subGo sendOk bs i σ).connected = σ.connected := by
  intro bs
  induction bs with
  | nil => exact fun i σ => ⟨rfl, rfl, rfl⟩
  | cons b rest ih =>
    intro i σ
    simp only [subGo]
    by_cases h : sendOk i = true
    · rw [if_pos h]
      exact ih (i + 1) _
    · rw [if_neg h]
      exact ih (i + 1) _

/-- Everything batch subscription adds to `pending` comes from its batch
list. -/
theorem subGo_pending_sub (sendOk : Nat → Bool) :
    ∀ bs i σ x, x ∈ (subGo sendOk bs i σ).pending →
      x ∈ σ.pending ∨ ∃ b ∈ bs, x ∈ b := by
  intro bs
  induction bs with
  | nil => exact fun i σ x hx => Or.inl hx
  | cons b rest ih =>
    intro i σ x
    simp only [subGo]
    by_cases h : sendOk i = true
    · rw [if_pos h]
      intro hx
      rcases ih (i + 1) _ x hx with hx' | ⟨b', hb', hxb'⟩
      · rcases Finset.mem_union.mp hx' with hp | hb
        · exact Or.inl hp
        · exact Or.inr ⟨b, List.mem_cons_self b rest, List.mem_toFinset.mp hb⟩
      · exact Or.inr ⟨b', List.mem_cons_of_mem b hb', hxb'⟩
    · rw [if_neg h]
      intro hx
      rcases ih (i + 1) _ x hx with hx' | ⟨b', hb', hxb'⟩
      · exact Or.inl hx'
      · exact Or.inr ⟨b', List.mem_cons_of_mem b hb', hxb'⟩

/-- Everything batch subscription adds to `failed` comes from its batch
list. -/
theorem subGo_failed_sub (sendOk : Nat → Bool) :
    ∀ bs i σ x, x ∈ (subGo sendOk bs i σ).failed →
      x ∈ σ.failed ∨ ∃ b ∈ bs, x ∈ b := by
  intro bs
  induction bs with
  | nil => exact fun i σ x hx => Or.inl hx
  | cons b rest ih =>
    intro i σ x
    simp only [subGo]
    by_cases h : sendOk i = true
    · rw [if_pos h]
      intro hx
      rcases ih (i + 1) _ x hx with hx' | ⟨b', hb', hxb'⟩
      · exact Or.inl hx'
      · exact Or.inr ⟨b', List.mem_cons_of_mem b hb', hxb'⟩
    · rw [if_neg h]
      intro hx
      rcases ih (i + 1) _ x hx with hx' | ⟨b', hb', hxb'⟩
      · rcases Finset.mem_union.mp hx' with hp | hb
        · exact Or.inl hp
        · exact Or.inr ⟨b, List.mem_cons_self b rest, List.mem_toFinset.mp hb⟩
      · exact Or.inr ⟨b', List.mem_cons_of_mem b hb', hxb'⟩

/-- Every element of every batch is an element of the chunked list. -/
theorem chunkPairsGo_mem :
    ∀ n l b x, b ∈ chunkPairsGo n l → x ∈ b → x ∈ (l : List String) := by
  intro n
  induction n with
  | zero =>
    intro l b x hb
    simp [chunkPairsGo] at hb
  | succ n ih =>
    intro l b x hb hx
    cases l with
    | nil => simp [chunkPairsGo] at hb
    | cons y rest =>
      simp only [chunkPairsGo] at hb
      rcases List.mem_cons.mp hb with rfl | hb'
      · exact List.take_subset 50 (y :: rest) hx
      · exact List.drop_subset 50 (y :: rest) (ih _ b x hb' hx)

/-- `_subscribe_to_pairs` adds to `pending` only pairs from its argument. -/
theorem subscribe_pending_sub (sendOk : Nat → Bool) (pairsList : List String)
    (σ : SubState) (x : String)
    (hx : x ∈ (subscribe_to_pairs sendOk pairsList σ).pending) :
    x ∈ σ.pending ∨ x ∈ pairsList := by
  rcases subGo_pending_sub sendOk (chunkPairs pairsList) 0 σ x hx with
    h | ⟨b, hb, hxb⟩
  · exact Or.inl h
  · exact Or.inr (chunkPairsGo_mem pairsList.length pairsList b x hb hxb)

/-- `_subscribe_to_pairs` adds to `failed` only pairs from its argument. -/
theorem subscribe_failed_sub (sendOk : Nat → Bool) (pairsList : List String)
    (σ : SubState) (x : String)
    (hx : x ∈ (subscribe_to_pairs sendOk pairsList σ).failed) :
    x ∈ σ.failed ∨ x ∈ pairsList := by
  rcases subGo_failed_sub sendOk (chunkPairs pairsList) 0 σ x hx with
    h | ⟨b, hb, hxb⟩
  · exact Or.inl h
  · exact Or.inr (chunkPairsGo_mem pairsList.length pairsList b x hb hxb)

/-- `_subscribe_to_pairs` touches only `pending` and `failed`. -/
theorem subscribe_frame (sendOk : Nat → Bool) (pairsList : List String)
    (σ : SubState) :
    (subscribe_to_pairs sendOk pairsList σ).trading = σ.trading ∧
      (subscribe_to_pairs sendOk pairsList σ).subscribed = σ.subscribed ∧
      (subscribe_to_pairs sendOk pairsList σ).connected = σ.connected :=
  subGo_frame sendOk (chunkPairs pairsList) 0 σ

/-- Every reachable subscription state satisfies the invariant. -/
theorem reach_subInv {σ : SubState} (h : Reach σ) : SubInv σ := by
  induction h with
  | init t0 =>
    exact ⟨fun _ => Finset.empty_subset _,
      fun x hx => absurd hx (Finset.not_mem_empty x),
      fun x hx => absurd hx (Finset.not_mem_empty x)⟩
  | connect sendOk order hσ horder ih =>
    rename_i σ'
    have hsub : (connectOp sendOk order σ').subscribed = ∅ := by
      simp only [connectOp]
      rw [(subscribe_frame sendOk order _).2.1]
    refine ⟨?_, ?_, ?_⟩
    · intro _
      rw [hsub]
      exact Finset.empty_subset _
    · intro x hx
      rw [hsub] at hx
      exact absurd hx (Finset.not_mem_empty x)
    · intro x _ hx'
      rw [hsub] at hx'
      exact absurd hx' (Finset.not_mem_empty x)
  | disconnect hσ ih =>
    obtain ⟨ih1, ih2, ih3⟩ := ih
    exact ⟨fun hco => absurd hco Bool.false_ne_true, ih2, ih3⟩
  | tick s hσ hco ih =>
    obtain ⟨ih1, ih2, ih3⟩ := ih
    rename_i σ'
    simp only [tickObserved]
    by_cases hs : s ∈ σ'.trading
    · rw [if_pos hs]
      refine ⟨?_, ?_, ?_⟩
      · intro hc x hx
        rcases Finset.mem_insert.mp hx with rfl | hx'
        · exact hs
        · exact ih1 hc hx'
      · intro x hx hx'
        rcases Finset.mem_insert.mp hx with rfl | hx2
        · exact Finset.not_mem_erase x _ hx'
        · exact ih2 x hx2 (Finset.mem_of_mem_erase hx')
      · intro x hx hx'
        rcases Finset.mem_insert.mp hx' with h | hx2
        · exact (Finset.mem_erase.mp hx).1 h
        · exact ih3 x (Finset.mem_of_mem_erase hx) hx2
    · rw [if_neg hs]
      exact ⟨ih1, ih2, ih3⟩
  | retry sendOk order hσ hco horder ih =>
    obtain ⟨ih1, ih2, ih3⟩ := ih
    rename_i σ'
    simp only [retryOp]
    refine ⟨?_, ?_, ?_⟩
    · intro _
      rw [(subscribe_frame sendOk order _).2.1, (subscribe_frame sendOk order _).1]
      exact ih1 hco
    · intro x hx hx'
      rw [(subscribe_frame sendOk order _).2.1] at hx
      rcases subscribe_failed_sub sendOk order _ x hx' with h | h
      · exact absurd h (Finset.not_mem_empty x)
      · refine ih2 x hx ?_
        rw [← horder]
        exact List.mem_toFinset.mpr h
    · intro x hx hx'
      rw [(subscribe_frame sendOk order _).2.1] at hx'
      rcases subscribe_pending_sub sendOk order _ x hx with h | h
      · exact ih3 x h hx'
      · refine ih2 x hx' ?_
        rw [← horder]
        exact List.mem_toFinset.mpr h
  | pairsUpdate dbPairs sendOk order hσ horder ih =>
    obtain ⟨ih1, ih2, ih3⟩ := ih
    rename_i σ'
    simp only [pairsUpdateOp]
    by_cases hco : σ'.connected = true
    · rw [if_pos hco]
      refine ⟨?_, ?_, ?_⟩
      · intro _ x hx
        rw [(subscribe_frame sendOk order _).2.1] at hx
        rw [(subscribe_frame sendOk order _).1]
        obtain ⟨hxs, hxnr⟩ := Finset.mem_sdiff.mp hx
        exact Finset.mem_sdiff.mpr ⟨Finset.mem_union_left _ (ih1 hco hxs), hxnr⟩
      · intro x hx hx'
        rw [(subscribe_frame sendOk order _).2.1] at hx
        obtain ⟨hxs, _⟩ := Finset.mem_sdiff.mp hx
        rcases subscribe_failed_sub sendOk order _ x hx' with h | h
        · exact ih2 x hxs h
        · have hxnew : x ∈ dbPairs \ σ'.trading := by
            rw [← horder]
            exact List.mem_toFinset.mpr h
          exact (Finset.mem_sdiff.mp hxnew).2 (ih1 hco hxs)
      · intro x hx hx'
        rw [(subscribe_frame sendOk order _).2.1] at hx'
        obtain ⟨hxs, _⟩ := Finset.mem_sdiff.mp hx'
        rcases subscribe_pending_sub sendOk order _ x hx with h | h
        · exact ih3 x h hxs
        · have hxnew : x ∈ dbPairs \ σ'.trading := by
            rw [← horder]
            exact List.mem_toFinset.mpr h
          exact (Finset.mem_sdiff.mp hxnew).2 (ih1 hco hxs)
    · rw [if_neg hco]
      exact ⟨fun hc => absurd hc hco, ih2, ih3⟩

/-- C2 (amended): in every reachable subscription state, `subscribed_pairs`
and `failed_subscriptions` are disjoint and so are `subscription_pending`
and `subscribed_pairs`; full pairwise disjointness fails only between
`pending` and `failed` (see the counterexample). -/
theorem subscription_invariant_amended (σ : SubState) (h : Reach σ) :
    (∀ x, x ∈ σ.subscribed → x ∉ σ.failed) ∧
      (∀ x, x ∈ σ.pending → x ∉ σ.subscribed) :=
  ⟨(reach_subInv h).2.1, (reach_subInv h).2.2⟩

/-- Witness for C2 at a concrete reachable state: connect with one pair and
observe a tick for it. -/
theorem subscription_invariant_amended_witness :
    (∀ x, x ∈ wSub.subscribed → x ∉ wSub.failed) ∧
      (∀ x, x ∈ wSub.pending → x ∉ wSub.subscribed) :=
  subscription_invariant_amended wSub
    (Reach.tick "BTCUSDT"
      (Reach.connect (fun _ => true) ["BTCUSDT"] (Reach.init {"BTCUSDT"})
        (by decide))
      (by decide))

/-- Counterexample to C2 as stated: the trace subscribe → remove → re-add
with a failing batch send is reachable, and after its final subscription
operation (a failed-batch handling) `BTCUSDT` sits in `subscription_pending`
and `failed_subscriptions` at once, because `_update_subscriptions` removes
an unsubscribed pair from `subscribed_pairs` only. -/
theorem subscription_sets_not_disjoint_cex :
    Reach cexSub ∧ "BTCUSDT" ∈ cexSub.pending ∧ "BTCUSDT" ∈ cexSub.failed := by
  refine ⟨?_, by decide, by decide⟩
  rw [cexSub]
  exact Reach.pairsUpdate {"BTCUSDT"} (fun _ => false) ["BTCUSDT"]
    (Reach.pairsUpdate ∅ (fun _ => true) []
      (Reach.connect (fun _ => true) ["BTCUSDT"] (Reach.init {"BTCUSDT"})
        (by decide))
      (by decide))
    (by decide)

end CriptoBack
